import Mathlib

/-! Framing protocol of `internal/monitors/pyrunner/messages.go`

A shallow embedding of the length-prefixed framing channel (`messageReadWriter`)
and of the Go standard-library pieces it is built from (`io.Reader`,
`io.Writer`, `io.ReadFull`, `io.LimitedReader`, `binary.LittleEndian`).

Conventions of the embedding:
* a byte is a `Fin 256`; a `uint32` is a `Nat` reduced `% 2 ^ 32` at every
  conversion; the `int64` field `N` of `io.LimitedReader` is an `Int`;
* the two underlying streams are explicit state machines (`InStream`,
  `OutStream`) that record how many calls they received, so that "performs no
  I/O" is observable;
* a Go `[]byte` argument that may be `nil` is an `Option (List Byte)`;
* the two `logger.Debug` calls of `RecvMessage` have no effect on the channel
  and are left out;
* what a user of the channel does over time is a list of `Call`s
  (`RecvMessage`, `SendMessage`, a read through the payload reader, `Close`),
  run in order by `runCalls`.
-/

namespace Pyrunner

/-- One octet. -/
abbrev Byte := Fin 256

/-- The error values that can be observed on the channel. -/
inductive Error where
  /-- Go `io.EOF`. -/
  | EOF
  /-- Go `io.ErrUnexpectedEOF`. -/
  | ErrUnexpectedEOF
  /-- The value `errors.New("last payload was not fully read, cannot receive")`. -/
  | lastPayloadNotFullyRead
  /-- The error a stream reports once it has been closed. -/
  | closed
  /-- Any other error produced by an underlying stream, tagged by a code. -/
  | stream (code : Nat)
  deriving DecidableEq, Repr

/-- The type `MessageType`, `uint32` in the source. -/
abbrev MessageType := Nat

def MessageTypeNone : MessageType := 0
def MessageTypeConfigure : MessageType := 1
def MessageTypeConfigureResult : MessageType := 2
def MessageTypeShutdown : MessageType := 3
def MessageTypeLog : MessageType := 4

/-- Conversion to `byte`: keeps the low eight bits. -/
def toByte (v : Nat) : Byte := ⟨v % 256, Nat.mod_lt v (by decide)⟩

/-- Go `binary.LittleEndian.PutUint32(b, v)`:
`b[0] = byte(v); b[1] = byte(v >> 8); b[2] = byte(v >> 16); b[3] = byte(v >> 24)`.
The four bytes of the buffer are returned as a list. -/
def PutUint32 (v : Nat) : List Byte :=
  [toByte v, toByte (v >>> 8), toByte (v >>> 16), toByte (v >>> 24)]

/-- Go `binary.LittleEndian.Uint32(b)`:
`uint32(b[0]) | uint32(b[1])<<8 | uint32(b[2])<<16 | uint32(b[3])<<24`.
Go panics when `len(b) < 4`; the callers below only pass full 4-byte buffers,
and the short case yields `0` here. -/
def Uint32 (b : List Byte) : Nat :=
  match b with
  | b0 :: b1 :: b2 :: b3 :: _ =>
      b0.val ||| (b1.val <<< 8) ||| (b2.val <<< 16) ||| (b3.val <<< 24)
  | _ => 0

/-- The reading end handed to the channel (an `io.ReadCloser`, in the agent a
pipe).  `data` are the bytes the stream will still deliver.  The i-th
delivering `Read` hands out at most `chunks[i] + 1` bytes (a pipe may return
fewer bytes than asked for); after the schedule is used up a `Read` hands out
as much as fits.  Once `data` is used up every `Read` reports `endErr`
(`io.EOF` for a stream that ended cleanly). -/
structure InStream where
  data : List Byte
  chunks : List Nat
  endErr : Error
  closed : Bool
  closeErr : Option Error
  readCalls : Nat
  closeCalls : Nat
  deriving DecidableEq, Repr

/-- The writing end handed to the channel (an `io.WriteCloser`).  `written`
are the bytes accepted so far.  `budget = none` is a stream that accepts every
byte; `budget = some b` accepts `b` more bytes and then fails with `failErr`. -/
structure OutStream where
  written : List Byte
  budget : Option Nat
  failErr : Error
  closed : Bool
  closeErr : Option Error
  writeCalls : Nat
  closeCalls : Nat
  deriving DecidableEq, Repr

/-- One `Read(p)` call with `len(p) = n` on the underlying stream: the bytes
stored into `p`, the error, and the stream afterwards.  A call either delivers
at least one byte with a nil error, or no byte with an error, or nothing at
all when `n = 0`. -/
def InStream.Read (s : InStream) (n : Nat) : (List Byte × Option Error) × InStream :=
  let s1 := { s with readCalls := s.readCalls + 1 }
  if s.closed then (([], some Error.closed), s1)
  else if n = 0 then (([], none), s1)
  else
    match s.data with
    | [] => (([], some s.endErr), s1)
    | _ :: _ =>
      let k := match s.chunks with
        | [] => n
        | c :: _ => min n (c + 1)
      ((s.data.take k, none), { s1 with data := s.data.drop k, chunks := s.chunks.tail })

/-- One `Write(p)` call on the underlying stream: the count of bytes written,
the error, and the stream afterwards.  As `io.Writer` demands, a short write
comes with an error. -/
def OutStream.Write (w : OutStream) (p : List Byte) : (Nat × Option Error) × OutStream :=
  let w1 := { w with writeCalls := w.writeCalls + 1 }
  if w.closed then ((0, some Error.closed), w1)
  else
    match w.budget with
    | none => ((p.length, none), { w1 with written := w.written ++ p })
    | some b =>
      if p.length ≤ b then
        ((p.length, none), { w1 with written := w.written ++ p, budget := some (b - p.length) })
      else
        ((b, some w.failErr), { w1 with written := w.written ++ p.take b, budget := some 0 })

/-- The loop of Go `io.ReadAtLeast(r, buf, min)` with `min = len(buf) = want`:
`for n < min && err == nil { nn, err = r.Read(buf[n:]); n += nn }`.
`got` are the bytes stored so far (`n = got.length`).  The recursion is on a
fuel counter; `ReadFull` supplies `want + 1`, which is never used up (see
`ReadFull.loop_fuel` and `ReadFull.loop_fuel_irrelevant`). -/
def ReadFull.loop : Nat → InStream → Nat → List Byte → Option Error →
    List Byte × Option Error × InStream
  | 0, r, _, got, err => (got, err, r)
  | fuel + 1, r, want, got, err =>
    if got.length < want ∧ err = none then
      let res := r.Read (want - got.length)
      ReadFull.loop fuel res.2 want (got ++ res.1.1) res.1.2
    else (got, err, r)

/-- Go `io.ReadFull(r, buf)` with `len(buf) = want`, that is
`io.ReadAtLeast(r, buf, len(buf))`: after the loop,
`if n >= min { err = nil } else if n > 0 && err == EOF { err = ErrUnexpectedEOF }`.
Returns the bytes stored in `buf`, the error and the stream afterwards. -/
def ReadFull (r : InStream) (want : Nat) : List Byte × Option Error × InStream :=
  let res := ReadFull.loop (want + 1) r want [] none
  if want ≤ res.1.length then (res.1, none, res.2.2)
  else if 0 < res.1.length ∧ res.2.1 = some Error.EOF then
    (res.1, some Error.ErrUnexpectedEOF, res.2.2)
  else (res.1, res.2.1, res.2.2)

/-- Go `io.LimitedReader`.  Its field `R` is always the channel's own `Reader`
(the same stream object, shared by reference), so only the counter `N` is
stored; reads through it act on the channel state (`readPayload`). -/
structure LimitedReader where
  N : Int
  deriving DecidableEq, Repr

/-- The channel `messageReadWriter`. -/
structure messageReadWriter where
  Reader : InStream
  Writer : OutStream
  lastPayloadReader : Option LimitedReader
  deriving DecidableEq, Repr

/-- Modelled from the spec: the bounded payload reader of section 4.1, in the
source an `io.LimitedReader` of the Go standard library, whose `Read` is not
under `src/`.  "When read, returns at most the remaining declared length;
reading beyond it returns end-of-stream even if more bytes exist on the
underlying stream."  The body is the library's `Read(p)` with `len(p) = n` and
`l.R = R`:
`if l.N <= 0 { return 0, EOF }; if int64(len(p)) > l.N { p = p[0:l.N] };
n, err = l.R.Read(p); l.N -= int64(n); return`. -/
def LimitedReader.Read (l : LimitedReader) (R : InStream) (n : Nat) :
    (List Byte × Option Error) × LimitedReader × InStream :=
  if l.N ≤ 0 then (([], some Error.EOF), l, R)
  else
    let n1 := if (n : Int) > l.N then l.N.toNat else n
    let res := R.Read n1
    (res.1, { N := l.N - (res.1.1.length : Int) }, res.2)

/-- The guard of `RecvMessage`:
`m.lastPayloadReader != nil && m.lastPayloadReader.N > 0`. -/
def payloadPending (m : messageReadWriter) : Bool :=
  match m.lastPayloadReader with
  | none => false
  | some l => decide (l.N > 0)

/-- The method `RecvMessage` of the source.  The result is the Go triple
`(MessageType, io.Reader, error)` together with the channel afterwards; the
returned reader is the one stored in `lastPayloadReader`. -/
def RecvMessage (m : messageReadWriter) :
    (MessageType × Option LimitedReader × Option Error) × messageReadWriter :=
  if payloadPending m then
    ((MessageTypeNone, none, some Error.lastPayloadNotFullyRead), m)
  else
    match ReadFull m.Reader 4 with
    | (_, some err, r1) => ((MessageTypeNone, none, some err), { m with Reader := r1 })
    | (buf, none, r1) =>
      let msgType : MessageType := Uint32 buf
      match ReadFull r1 4 with
      | (_, some err, r2) => ((MessageTypeNone, none, some err), { m with Reader := r2 })
      | (buf2, none, r2) =>
        let size := Uint32 buf2
        let payloadReader : LimitedReader := { N := (size : Int) }
        ((msgType, some payloadReader, none),
          { m with Reader := r2, lastPayloadReader := some payloadReader })

/-- Go `len(payload)` for a slice that may be nil. -/
def payloadLen (payload : Option (List Byte)) : Nat :=
  match payload with
  | none => 0
  | some p => p.length

/-- The method `SendMessage` of the source: the returned error and the channel
afterwards.  `uint32(msgType)` and `uint32(len(payload))` are the reductions
`% 2 ^ 32`. -/
def SendMessage (m : messageReadWriter) (msgType : MessageType)
    (payload : Option (List Byte)) : Option Error × messageReadWriter :=
  match m.Writer.Write (PutUint32 (msgType % 2 ^ 32)) with
  | ((_, some err), w1) => (some err, { m with Writer := w1 })
  | ((_, none), w1) =>
    match w1.Write (PutUint32 (payloadLen payload % 2 ^ 32)) with
    | ((_, some err), w2) => (some err, { m with Writer := w2 })
    | ((_, none), w2) =>
      match payload with
      | some p =>
        let res := w2.Write p
        (res.1.2, { m with Writer := res.2 })
      | none => (none, { m with Writer := w2 })

/-- A read of `n` bytes by the caller through the payload reader that the
last successful `RecvMessage` returned.  When no reader was ever handed out
there is nothing to read from and the channel is left alone. -/
def readPayload (m : messageReadWriter) (n : Nat) :
    (List Byte × Option Error) × messageReadWriter :=
  match m.lastPayloadReader with
  | none => (([], none), m)
  | some l =>
    let res := l.Read m.Reader n
    (res.1, { m with Reader := res.2.2, lastPayloadReader := some res.2.1 })

/-! ### Callers of the channel

The claims speak of what a caller observes over several calls; the following
functions only sequence the operations above. -/

/-- The bytes of a payload argument (`nil` and the empty slice both hold none). -/
def payloadBytes (payload : Option (List Byte)) : List Byte :=
  match payload with
  | none => []
  | some p => p

/-- A sequence of reads through the payload reader, one per buffer length in
`lens`, carried on whatever each read returns.  Returns what each read
returned and the channel afterwards. -/
def readPayloads : messageReadWriter → List Nat →
    List (List Byte × Option Error) × messageReadWriter
  | m, [] => ([], m)
  | m, n :: ns =>
    let r := readPayload m n
    let rest := readPayloads r.2 ns
    (r.1 :: rest.1, rest.2)

/-- All bytes returned by a sequence of reads, in order. -/
def returnedBytes : List (List Byte × Option Error) → List Byte
  | [] => []
  | r :: rs => r.1 ++ returnedBytes rs

/-- Reading the payload reader to exhaustion: one read per buffer length in
`bufs`, stopping at the first read that reports an error.  Returns the bytes
collected, that error (`none` when `bufs` ran out first) and the channel. -/
def readAll : messageReadWriter → List Nat →
    (List Byte × Option Error) × messageReadWriter
  | m, [] => (([], none), m)
  | m, n :: ns =>
    match readPayload m n with
    | ((bs, some e), m1) => ((bs, some e), m1)
    | ((bs, none), m1) =>
      let rest := readAll m1 ns
      ((bs ++ rest.1.1, rest.1.2), rest.2)

/-- Sending a list of messages in order, stopping at the first failure. -/
def sendAll : messageReadWriter → List (MessageType × Option (List Byte)) →
    Option Error × messageReadWriter
  | m, [] => (none, m)
  | m, tp :: rest =>
    match SendMessage m tp.1 tp.2 with
    | (some e, m1) => (some e, m1)
    | (none, m1) => sendAll m1 rest

/-- Receiving frames one after the other, reading each returned payload
reader to exhaustion (with the buffer lengths `bufs`), until `RecvMessage`
fails or `rounds` calls were made.  Returns the frames received, the error of
the failing `RecvMessage` (`none` when `rounds` ran out first) and the
channel. -/
def recvAll : Nat → List Nat → messageReadWriter →
    List (MessageType × List Byte) × Option Error × messageReadWriter
  | 0, _, m => ([], none, m)
  | rounds + 1, bufs, m =>
    match RecvMessage m with
    | ((_, _, some e), m1) => ([], some e, m1)
    | ((t, _, none), m1) =>
      let body := readAll m1 bufs
      let rest := recvAll rounds bufs body.2
      ((t, body.1.1) :: rest.1, rest.2)

/-- The wire encoding of the specification: an unsigned 32-bit value as four
bytes, least significant first. -/
def LE32 (v : Nat) : List Byte :=
  [toByte v, toByte (v / 256), toByte (v / 65536), toByte (v / 16777216)]

/-- The value of four bytes read as an unsigned 32-bit little-endian number,
as the specification states the header fields. -/
def LE32.value (b0 b1 b2 b3 : Byte) : Nat :=
  b0.val + 256 * b1.val + 65536 * b2.val + 16777216 * b3.val

/-- A writing stream that accepts every byte, with nothing written yet. -/
def OutStream.accepting : OutStream :=
  { written := [], budget := none, failErr := Error.stream 0, closed := false,
    closeErr := none, writeCalls := 0, closeCalls := 0 }

/-- A reading stream that delivers `data`, in the pieces `chunks` allows, and
then ends cleanly. -/
def InStream.ofBytes (data : List Byte) (chunks : List Nat) : InStream :=
  { data := data, chunks := chunks, endErr := Error.EOF, closed := false,
    closeErr := none, readCalls := 0, closeCalls := 0 }

/-- A channel on which nothing was received yet. -/
def messageReadWriter.fresh (r : InStream) (w : OutStream) : messageReadWriter :=
  { Reader := r, Writer := w, lastPayloadReader := none }

/-- The byte stream that a list of frames makes up on the wire. -/
def wireBytes : List (MessageType × Option (List Byte)) → List Byte
  | [] => []
  | tp :: rest =>
    LE32 tp.1 ++ LE32 (payloadLen tp.2) ++ payloadBytes tp.2 ++ wireBytes rest

/-! ### Closing, and arbitrary sequences of calls -/

/-- The call `Close()` on the reading stream: it returns what the stream was
set to return and leaves the stream closed. -/
def InStream.Close (s : InStream) : Option Error × InStream :=
  (s.closeErr, { s with closed := true, closeCalls := s.closeCalls + 1 })

/-- The call `Close()` on the writing stream. -/
def OutStream.Close (w : OutStream) : Option Error × OutStream :=
  (w.closeErr, { w with closed := true, closeCalls := w.closeCalls + 1 })

/-- The method `Close` of the source: `m.Reader.Close()` then
`m.Writer.Close()`.  The method has no result and both statements drop the
error their call returns, so the result here is the unit value together with
the channel afterwards. -/
def Close (m : messageReadWriter) : Unit × messageReadWriter :=
  let r := m.Reader.Close
  let w := m.Writer.Close
  ((), { m with Reader := r.2, Writer := w.2 })

/-- One call a user of the channel can make: `RecvMessage`, `SendMessage`, a
read through the payload reader returned last, or `Close`.  (A payload reader
returned earlier than the last one has `N = 0` from then on, since the next
`RecvMessage` only succeeds at `N <= 0`; its reads return `io.EOF` and touch
nothing, so they are not listed.) -/
inductive Call where
  | recv
  | send (t : MessageType) (payload : Option (List Byte))
  | read (n : Nat)
  | close
  deriving DecidableEq, Repr

/-- What a call returned to its caller. -/
inductive Outcome where
  | recv (t : MessageType) (reader : Option LimitedReader) (err : Option Error)
  | send (err : Option Error)
  | read (bytes : List Byte) (err : Option Error)
  | close
  deriving DecidableEq, Repr

/-- Running one call on the channel. -/
def Call.run (c : Call) (m : messageReadWriter) : Outcome × messageReadWriter :=
  match c with
  | Call.recv =>
    let r := RecvMessage m
    (Outcome.recv r.1.1 r.1.2.1 r.1.2.2, r.2)
  | Call.send t payload =>
    let r := SendMessage m t payload
    (Outcome.send r.1, r.2)
  | Call.read n =>
    let r := readPayload m n
    (Outcome.read r.1.1 r.1.2, r.2)
  | Call.close => (Outcome.close, (Close m).2)

/-- Running a sequence of calls in order: what each returned, and the channel
afterwards. -/
def runCalls : messageReadWriter → List Call → List Outcome × messageReadWriter
  | m, [] => ([], m)
  | m, c :: cs =>
    let r := c.run m
    let rest := runCalls r.2 cs
    (r.1 :: rest.1, rest.2)

/-- The remaining count of the pending cursor: `lastPayloadReader.N`, and `0`
while no frame was received yet. -/
def remaining (m : messageReadWriter) : Int :=
  match m.lastPayloadReader with
  | none => 0
  | some l => l.N

/-- Bookkeeping of an observer of the calls: the length declared by the header
parsed last, and the number of bytes the payload reader returned since. -/
structure Cursor where
  declared : Int
  returned : Nat
  deriving DecidableEq, Repr

/-- The first write of `SendMessage`: the type word. -/
def typeWrite (m : messageReadWriter) (t : MessageType) : (Nat × Option Error) × OutStream :=
  m.Writer.Write (PutUint32 (t % 2 ^ 32))

/-- The second write of `SendMessage`, made after a type write without error:
the length word. -/
def lengthWrite (m : messageReadWriter) (t : MessageType) (payload : Option (List Byte)) :
    (Nat × Option Error) × OutStream :=
  (typeWrite m t).2.Write (PutUint32 (payloadLen payload % 2 ^ 32))

/-- The third write of `SendMessage`, made after two writes without error when
the payload is not nil: the payload. -/
def payloadWrite (m : messageReadWriter) (t : MessageType) (p : List Byte) :
    (Nat × Option Error) × OutStream :=
  (lengthWrite m t (some p)).2.Write p

/-- The pending cursor as the observer's bookkeeping gives it. -/
def Cursor.reader (g : Option Cursor) : Option LimitedReader :=
  g.map (fun c => { N := c.declared - (c.returned : Int) })

/-! ## Lemmas -/

/-! ### Little-endian words -/

theorem lor_shiftLeft_eq_add (a b i : Nat) (h : b < 2 ^ i) :
    b ||| (a <<< i) = b + 2 ^ i * a := by
  rw [Nat.lor_comm, Nat.shiftLeft_eq, Nat.mul_comm a, ← Nat.mul_add_lt_is_or h a, Nat.add_comm]

theorem Uint32_eq (b0 b1 b2 b3 : Byte) (tl : List Byte) :
    Uint32 (b0 :: b1 :: b2 :: b3 :: tl) =
      b0.val + 256 * b1.val + 65536 * b2.val + 16777216 * b3.val := by
  have h0 := b0.isLt
  have h1 := b1.isLt
  have h2 := b2.isLt
  have h3 := b3.isLt
  simp only [Uint32]
  rw [lor_shiftLeft_eq_add b1.val b0.val 8 (by omega),
    lor_shiftLeft_eq_add b2.val _ 16 (by omega),
    lor_shiftLeft_eq_add b3.val _ 24 (by omega)]
  norm_num

theorem Uint32_lt (b : List Byte) : Uint32 b < 2 ^ 32 := by
  match b with
  | [] | [_] | [_, _] | [_, _, _] => simp [Uint32]
  | b0 :: b1 :: b2 :: b3 :: tl =>
    rw [Uint32_eq]
    have h0 := b0.isLt
    have h1 := b1.isLt
    have h2 := b2.isLt
    have h3 := b3.isLt
    omega

theorem PutUint32_val (v : Nat) :
    (PutUint32 v).map Fin.val =
      [v % 256, v / 256 % 256, v / 65536 % 256, v / 16777216 % 256] := by
  simp [PutUint32, toByte, Nat.shiftRight_eq_div_pow]

theorem PutUint32_length (v : Nat) : (PutUint32 v).length = 4 := rfl

theorem Uint32_PutUint32 (v : Nat) (h : v < 2 ^ 32) (tl : List Byte) :
    Uint32 (PutUint32 v ++ tl) = v := by
  simp only [PutUint32, List.cons_append, List.nil_append, Uint32_eq, toByte,
    Nat.shiftRight_eq_div_pow]
  omega

/-! ### The underlying reading stream -/

theorem InStream.Read_data (s : InStream) (n : Nat) :
    s.data = (s.Read n).1.1 ++ (s.Read n).2.data := by
  unfold InStream.Read
  by_cases hc : s.closed = true
  · simp [hc]
  · by_cases hn : n = 0
    · simp [hc, hn]
    · cases hd : s.data with
      | nil => simp [hc, hn, hd]
      | cons x xs => simp [hc, hn, hd]

theorem InStream.Read_length_le (s : InStream) (n : Nat) :
    (s.Read n).1.1.length ≤ n := by
  unfold InStream.Read
  by_cases hc : s.closed = true
  · simp [hc]
  · by_cases hn : n = 0
    · simp [hc, hn]
    · cases hd : s.data with
      | nil => simp [hc, hn, hd]
      | cons x xs =>
        cases hk : s.chunks with
        | nil => simp [hc, hn, hd, hk]
        | cons c cs => simp [hc, hn, hd, hk]

theorem InStream.Read_closed (s : InStream) (n : Nat) :
    (s.Read n).2.closed = s.closed := by
  unfold InStream.Read
  by_cases hc : s.closed = true
  · simp [hc]
  · by_cases hn : n = 0
    · simp [hc, hn]
    · cases hd : s.data with
      | nil => simp [hc, hn, hd]
      | cons x xs => simp [hc, hn, hd]

theorem InStream.Read_endErr (s : InStream) (n : Nat) :
    (s.Read n).2.endErr = s.endErr := by
  unfold InStream.Read
  by_cases hc : s.closed = true
  · simp [hc]
  · by_cases hn : n = 0
    · simp [hc, hn]
    · cases hd : s.data with
      | nil => simp [hc, hn, hd]
      | cons x xs => simp [hc, hn, hd]

/-- On an open stream a read for at least one byte delivers at least one byte
without error when data is left, and reports the end error otherwise. -/
theorem InStream.Read_open (s : InStream) (n : Nat) (hc : s.closed = false) (hn : 0 < n) :
    (s.data = [] ∧ (s.Read n).1 = ([], some s.endErr)) ∨
    (s.data ≠ [] ∧ (s.Read n).1.2 = none ∧ 0 < (s.Read n).1.1.length) := by
  unfold InStream.Read
  have hn0 : n ≠ 0 := by omega
  cases hd : s.data with
  | nil => left; simp [hc, hn0, hd]
  | cons x xs =>
    right
    cases hk : s.chunks with
    | nil => simp [hc, hn0, hd, hk]; omega
    | cons c cs => simp [hc, hn0, hd, hk]; omega

/-- A read for at least one byte either returns an error or at least one byte,
on any stream. -/
theorem InStream.Read_progress (s : InStream) (n : Nat) (hn : 0 < n) :
    (s.Read n).1.2 ≠ none ∨ 0 < (s.Read n).1.1.length := by
  by_cases hc : s.closed = true
  · left
    simp [InStream.Read, hc]
  · rcases s.Read_open n (by simpa using hc) hn with ⟨_, h⟩ | ⟨_, _, h⟩
    · left; rw [h]; simp
    · right; exact h

/-! ### The loop of `io.ReadFull` -/

theorem ReadFull.loop_err (fuel : Nat) (r : InStream) (want : Nat) (got : List Byte)
    (e : Error) : ReadFull.loop fuel r want got (some e) = (got, some e, r) := by
  cases fuel <;> simp [ReadFull.loop]

theorem ReadFull.loop_done (fuel : Nat) (r : InStream) (want : Nat) (got : List Byte)
    (err : Option Error) (h : want ≤ got.length) :
    ReadFull.loop fuel r want got err = (got, err, r) := by
  cases fuel with
  | zero => simp [ReadFull.loop]
  | succ f =>
    have : ¬ got.length < want := by omega
    simp [ReadFull.loop, this]

/-- The fuel that `ReadFull` supplies is never used up: with more fuel than
bytes still wanted, the loop ends because its condition `n < min && err == nil`
is false. -/
theorem ReadFull.loop_fuel (fuel : Nat) : ∀ (r : InStream) (want : Nat) (got : List Byte)
    (err : Option Error), want - got.length < fuel →
    ¬ ((ReadFull.loop fuel r want got err).1.length < want ∧
        (ReadFull.loop fuel r want got err).2.1 = none) := by
  induction fuel with
  | zero => intro r want got err h; omega
  | succ f ih =>
    intro r want got err hf
    by_cases hcond : got.length < want ∧ err = none
    · have hstep : ReadFull.loop (f + 1) r want got err =
          ReadFull.loop f (r.Read (want - got.length)).2 want
            (got ++ (r.Read (want - got.length)).1.1) (r.Read (want - got.length)).1.2 := by
        simp [ReadFull.loop, hcond]
      rw [hstep]
      rcases r.Read_progress (want - got.length) (by omega) with he | hpos
      · cases hr : (r.Read (want - got.length)).1.2 with
        | none => exact absurd hr he
        | some e =>
          rw [ReadFull.loop_err]
          simp
      · apply ih
        simp only [List.length_append]
        omega
    · have hstop : ReadFull.loop (f + 1) r want got err = (got, err, r) := by
        simp only [ReadFull.loop, if_neg hcond]
      rw [hstop]
      exact hcond

/-- Any two amounts of fuel above the number of bytes still wanted give the
same result: the result of `ReadFull` does not depend on the fuel. -/
theorem ReadFull.loop_fuel_irrelevant (f1 : Nat) : ∀ (f2 : Nat) (r : InStream) (want : Nat)
    (got : List Byte) (err : Option Error),
    want - got.length < f1 → want - got.length < f2 →
    ReadFull.loop f1 r want got err = ReadFull.loop f2 r want got err := by
  induction f1 with
  | zero => intro f2 r want got err h; omega
  | succ f ih =>
    intro f2 r want got err h1 h2
    obtain ⟨g, rfl⟩ : ∃ g, f2 = g + 1 := ⟨f2 - 1, by omega⟩
    by_cases hcond : got.length < want ∧ err = none
    · simp only [ReadFull.loop, if_pos hcond]
      rcases r.Read_progress (want - got.length) (by omega) with he | hpos
      · cases hr : (r.Read (want - got.length)).1.2 with
        | none => exact absurd hr he
        | some e => rw [ReadFull.loop_err, ReadFull.loop_err]
      · apply ih
        · simp only [List.length_append]; omega
        · simp only [List.length_append]; omega
    · simp only [ReadFull.loop, if_neg hcond]

/-- What the loop of `ReadFull` computes on an open stream, for any fuel above
the number of bytes still wanted. -/
theorem ReadFull.loop_open (fuel : Nat) : ∀ (r : InStream) (want : Nat) (got : List Byte),
    r.closed = false → want - got.length < fuel →
    (ReadFull.loop fuel r want got none).1 = got ++ r.data.take (want - got.length) ∧
    (ReadFull.loop fuel r want got none).2.1 =
      (if want - got.length ≤ r.data.length then none else some r.endErr) ∧
    (ReadFull.loop fuel r want got none).2.2.data = r.data.drop (want - got.length) ∧
    (ReadFull.loop fuel r want got none).2.2.closed = false ∧
    (ReadFull.loop fuel r want got none).2.2.endErr = r.endErr := by
  induction fuel with
  | zero => intro r want got _ h; omega
  | succ f ih =>
    intro r want got hc hf
    by_cases hlt : got.length < want
    · have hn : 0 < want - got.length := by omega
      have hstep : ReadFull.loop (f + 1) r want got none =
          ReadFull.loop f (r.Read (want - got.length)).2 want
            (got ++ (r.Read (want - got.length)).1.1) (r.Read (want - got.length)).1.2 := by
        simp [ReadFull.loop, hlt]
      rw [hstep]
      have hdata := r.Read_data (want - got.length)
      have hle := r.Read_length_le (want - got.length)
      have hcl := r.Read_closed (want - got.length)
      have hend := r.Read_endErr (want - got.length)
      have hopen := r.Read_open (want - got.length) hc hn
      rcases hR : r.Read (want - got.length) with ⟨⟨bs, err⟩, r1⟩
      rw [hR] at hdata hle hcl hend hopen
      simp only at hdata hle hcl hend hopen ⊢
      rcases hopen with ⟨hd, hres⟩ | ⟨hd, herr, hpos⟩
      · obtain ⟨hbs, herr⟩ := Prod.mk.inj hres
        subst hbs herr
        rw [ReadFull.loop_err]
        have hne : ¬ (want - got.length ≤ 0) := by omega
        simp only [List.nil_append] at hdata
        simp [hd, hc, hcl, hend, hne, ← hdata]
      · subst herr
        have hf2 : want - (got ++ bs).length < f := by
          simp only [List.length_append]; omega
        obtain ⟨h1, h2, h3, h4, h5⟩ := ih r1 want (got ++ bs) (by rw [hcl]; exact hc) hf2
        have e : want - got.length = bs.length + (want - (got ++ bs).length) := by
          simp only [List.length_append]; omega
        have hl : r.data.length = bs.length + r1.data.length := by
          rw [hdata]; simp
        refine ⟨?_, ?_, ?_, h4, by rw [h5, hend]⟩
        · rw [h1, hdata, e, List.take_append]
          simp
        · rw [h2]
          by_cases hq : want - got.length ≤ r.data.length
          · rw [if_pos hq, if_pos (by omega)]
          · rw [if_neg hq, if_neg (by omega), hend]
        · rw [h3, hdata, e, List.drop_append]
    · have hge : want ≤ got.length := by omega
      rw [ReadFull.loop_done _ _ _ _ _ hge]
      have h0 : want - got.length = 0 := by omega
      simp [h0, hc]

/-! ### `io.ReadFull` on an open stream, and `RecvMessage` -/


/-- The call `ReadFull` on an open stream: it stores the first `want` bytes of the data
(all of it when there is less), and fails exactly when there is less. -/
theorem ReadFull_open (r : InStream) (want : Nat) (hc : r.closed = false) :
    ∃ r1 : InStream,
      ReadFull r want =
        (r.data.take want,
          (if want ≤ r.data.length then none
            else if r.data ≠ [] ∧ r.endErr = Error.EOF then some Error.ErrUnexpectedEOF
            else some r.endErr),
          r1) ∧
      r1.data = r.data.drop want ∧ r1.closed = false ∧ r1.endErr = r.endErr := by
  obtain ⟨h1, h2, h3, h4, h5⟩ :=
    ReadFull.loop_open (want + 1) r want [] hc (by simp)
  simp only [List.length_nil, Nat.sub_zero, List.nil_append] at h1 h2 h3
  refine ⟨(ReadFull.loop (want + 1) r want [] none).2.2, ?_, h3, h4, h5⟩
  unfold ReadFull
  simp only [h1, h2, List.length_take]
  by_cases hq : want ≤ r.data.length
  · have : want ≤ min want r.data.length := by omega
    simp [hq]
  · have hlt : ¬ want ≤ min want r.data.length := by omega
    rw [if_neg hlt, if_neg hq, if_neg hq]
    by_cases hd : r.data = []
    · simp [hd]
    · have hpos : 0 < min want r.data.length := by
        have := List.length_pos.mpr hd
        omega
      by_cases he : r.endErr = Error.EOF
      · simp [hd, he, hpos]
      · simp [hd, he, hpos]

/-- A complete header on an open, idle channel is parsed. -/
theorem RecvMessage_header (m : messageReadWriter) (b0 b1 b2 b3 b4 b5 b6 b7 : Byte)
    (rest : List Byte) (hidle : payloadPending m = false) (hc : m.Reader.closed = false)
    (hd : m.Reader.data = b0 :: b1 :: b2 :: b3 :: b4 :: b5 :: b6 :: b7 :: rest) :
    ∃ r2 : InStream,
      RecvMessage m =
        ((Uint32 [b0, b1, b2, b3], some ⟨(Uint32 [b4, b5, b6, b7] : Int)⟩, none),
          { m with Reader := r2,
                   lastPayloadReader := some ⟨(Uint32 [b4, b5, b6, b7] : Int)⟩ }) ∧
      r2.data = rest ∧ r2.closed = false ∧ r2.endErr = m.Reader.endErr := by
  obtain ⟨r1, e1, d1, c1, n1⟩ := ReadFull_open m.Reader 4 hc
  obtain ⟨r2, e2, d2, c2, n2⟩ := ReadFull_open r1 4 c1
  rw [hd] at e1 d1
  simp only [List.drop_succ_cons, List.drop_zero] at d1
  rw [d1] at e2 d2
  simp only [List.drop_succ_cons, List.drop_zero] at d2
  refine ⟨r2, ?_, d2, c2, by rw [n2, n1]⟩
  unfold RecvMessage
  rw [hidle, e1]
  simp [e2]

/-- A header cut short on an open, idle channel: the call fails, nothing is
left on the stream, and the pending cursor is as before. -/
theorem RecvMessage_short (m : messageReadWriter) (hidle : payloadPending m = false)
    (hc : m.Reader.closed = false) (hk : m.Reader.data.length < 8) :
    ∃ r2 : InStream,
      RecvMessage m =
        ((MessageTypeNone, none,
            some (if m.Reader.data.length = 0 ∨ m.Reader.data.length = 4 then m.Reader.endErr
              else if m.Reader.endErr = Error.EOF then Error.ErrUnexpectedEOF
              else m.Reader.endErr)),
          { m with Reader := r2 }) ∧
      r2.data = [] ∧ r2.closed = false ∧ r2.endErr = m.Reader.endErr := by
  obtain ⟨r1, e1, d1, c1, n1⟩ := ReadFull_open m.Reader 4 hc
  by_cases h4 : 4 ≤ m.Reader.data.length
  · obtain ⟨r2, e2, d2, c2, n2⟩ := ReadFull_open r1 4 c1
    have hl1 : m.Reader.data.length = r1.data.length + 4 := by
      rw [d1, List.length_drop]; omega
    have hlt : ¬ 4 ≤ r1.data.length := by omega
    rw [if_pos h4] at e1
    rw [if_neg hlt, n1] at e2
    refine ⟨r2, ?_, ?_, c2, by rw [n2, n1]⟩
    · unfold RecvMessage
      rw [hidle, e1]
      simp only [Bool.false_eq_true, if_false, e2]
      by_cases hz : r1.data = []
      · have h0 : r1.data.length = 0 := by rw [hz]; rfl
        have hl : m.Reader.data.length = 0 ∨ m.Reader.data.length = 4 := by omega
        rw [if_pos hl, if_neg (by simp [hz])]
      · have hpos := List.length_pos.mpr hz
        have hne : ¬ (m.Reader.data.length = 0 ∨ m.Reader.data.length = 4) := by omega
        rw [if_neg hne]
        by_cases he : m.Reader.endErr = Error.EOF
        · rw [if_pos ⟨hz, he⟩, if_pos he]
        · rw [if_neg (fun h => he h.2), if_neg he]
    · rw [d2]
      apply List.drop_eq_nil_of_le
      omega
  · rw [if_neg h4] at e1
    refine ⟨r1, ?_, ?_, c1, n1⟩
    · unfold RecvMessage
      rw [hidle, e1]
      simp only [Bool.false_eq_true, if_false]
      by_cases hz : m.Reader.data = []
      · have h0 : m.Reader.data.length = 0 := by rw [hz]; rfl
        rw [if_pos (Or.inl h0), if_neg (by simp [hz])]
      · have hpos := List.length_pos.mpr hz
        have hne : ¬ (m.Reader.data.length = 0 ∨ m.Reader.data.length = 4) := by omega
        rw [if_neg hne]
        by_cases he : m.Reader.endErr = Error.EOF
        · rw [if_pos ⟨hz, he⟩, if_pos he]
        · rw [if_neg (fun h => he h.2), if_neg he]
    · rw [d1]
      apply List.drop_eq_nil_of_le
      omega

/-- The state check: with unread payload bytes the call fails and the channel
is untouched. -/
theorem RecvMessage_pending (m : messageReadWriter) (h : payloadPending m = true) :
    RecvMessage m = ((MessageTypeNone, none, some Error.lastPayloadNotFullyRead), m) := by
  simp [RecvMessage, h]

theorem payloadPending_iff (m : messageReadWriter) :
    payloadPending m = true ↔ ∃ l, m.lastPayloadReader = some l ∧ 0 < l.N := by
  unfold payloadPending
  cases m.lastPayloadReader with
  | none => simp
  | some l => simp

/-! ### The payload reader -/

/-- A drained payload reader reports end-of-stream and touches nothing. -/
theorem readPayload_done (m : messageReadWriter) (l : LimitedReader) (n : Nat)
    (h : m.lastPayloadReader = some l) (hN : l.N ≤ 0) :
    readPayload m n = (([], some Error.EOF), m) := by
  unfold readPayload
  rw [h]
  simp only [LimitedReader.Read, hN, if_true]
  cases m
  simp_all

/-- Bookkeeping of one read through the payload reader, on any stream. -/
theorem readPayload_some (m : messageReadWriter) (l : LimitedReader) (n : Nat)
    (h : m.lastPayloadReader = some l) :
    (readPayload m n).2.lastPayloadReader =
        some ⟨l.N - ((readPayload m n).1.1.length : Int)⟩ ∧
      (readPayload m n).1.1.length ≤ n ∧
      (0 ≤ l.N → ((readPayload m n).1.1.length : Int) ≤ l.N) ∧
      (readPayload m n).2.Writer = m.Writer ∧
      m.Reader.data = (readPayload m n).1.1 ++ (readPayload m n).2.Reader.data ∧
      (readPayload m n).2.Reader.closed = m.Reader.closed ∧
      (readPayload m n).2.Reader.endErr = m.Reader.endErr := by
  by_cases hN : l.N ≤ 0
  · rw [readPayload_done m l n h hN]
    simp [h]
  · unfold readPayload
    rw [h]
    simp only [LimitedReader.Read, hN, if_false]
    refine ⟨trivial, ?_, ?_, trivial, InStream.Read_data _ _, InStream.Read_closed _ _,
      InStream.Read_endErr _ _⟩
    · by_cases hn : (n : Int) > l.N
      · rw [if_pos hn]
        have := m.Reader.Read_length_le l.N.toNat
        omega
      · rw [if_neg hn]
        exact m.Reader.Read_length_le n
    · intro _
      by_cases hn : (n : Int) > l.N
      · rw [if_pos hn]
        have := m.Reader.Read_length_le l.N.toNat
        omega
      · rw [if_neg hn]
        have := m.Reader.Read_length_le n
        omega

/-- A read for at least one byte through a reader with bytes left, on an open
stream that still has data, returns at least one byte and no error. -/
theorem readPayload_progress (m : messageReadWriter) (l : LimitedReader) (n : Nat)
    (h : m.lastPayloadReader = some l) (hN : 0 < l.N) (hn : 0 < n)
    (hc : m.Reader.closed = false) (hd : m.Reader.data ≠ []) :
    (readPayload m n).1.2 = none ∧ 0 < (readPayload m n).1.1.length := by
  have hN0 : ¬ l.N ≤ 0 := by omega
  unfold readPayload
  rw [h]
  simp only [LimitedReader.Read, hN0, if_false]
  by_cases hq : (n : Int) > l.N
  · rw [if_pos hq]
    rcases m.Reader.Read_open l.N.toNat hc (by omega) with ⟨h0, _⟩ | ⟨_, h1, h2⟩
    · exact absurd h0 hd
    · exact ⟨h1, h2⟩
  · rw [if_neg hq]
    rcases m.Reader.Read_open n hc hn with ⟨h0, _⟩ | ⟨_, h1, h2⟩
    · exact absurd h0 hd
    · exact ⟨h1, h2⟩

/-- Reading to exhaustion: on an open stream that holds the `N` declared
bytes, positive buffer lengths, more of them than `N`, collect exactly those
`N` bytes and end with `io.EOF`. -/
theorem readAll_drains (bufs : List Nat) : ∀ (m : messageReadWriter) (N : Nat),
    m.lastPayloadReader = some ⟨(N : Int)⟩ → m.Reader.closed = false →
    N ≤ m.Reader.data.length → (∀ b ∈ bufs, 0 < b) → N < bufs.length →
    (readAll m bufs).1 = (m.Reader.data.take N, some Error.EOF) ∧
    (readAll m bufs).2.Reader.data = m.Reader.data.drop N ∧
    (readAll m bufs).2.lastPayloadReader = some ⟨0⟩ ∧
    (readAll m bufs).2.Writer = m.Writer ∧
    (readAll m bufs).2.Reader.closed = false ∧
    (readAll m bufs).2.Reader.endErr = m.Reader.endErr := by
  induction bufs with
  | nil => intro m N _ _ _ _ h; simp at h
  | cons b bs ih =>
    intro m N hl hc hlen hpos hfuel
    by_cases hN : N = 0
    · subst hN
      have := readPayload_done m ⟨0⟩ b (by simpa using hl) (by simp)
      simp only [readAll, this]
      simp [hc]
      simpa using hl
    · have hb : 0 < b := hpos b (by simp)
      have hne : m.Reader.data ≠ [] := by
        intro h0; rw [h0] at hlen; simp at hlen; omega
      obtain ⟨q1, q2, q3, q4, q5, q6, q7⟩ := readPayload_some m ⟨(N : Int)⟩ b hl
      obtain ⟨p1, p2⟩ := readPayload_progress m ⟨(N : Int)⟩ b hl (by simp; omega) hb hc hne
      have q3 := q3 (by simp)
      rcases hR : readPayload m b with ⟨⟨got, err⟩, m1⟩
      rw [hR] at q1 q2 q3 q4 q5 q6 q7 p1 p2
      simp only at q1 q2 q3 q4 q5 q6 q7 p1 p2
      subst p1
      have hN1 : ((N - got.length : Nat) : Int) = (N : Int) - (got.length : Int) := by omega
      have hlen1 : m.Reader.data.length = got.length + m1.Reader.data.length := by
        rw [q5]; simp
      obtain ⟨r1, r2, r3, r4, r5, r6⟩ := ih m1 (N - got.length) (by rw [q1, hN1])
        (by rw [q6, hc]) (by omega) (fun x hx => hpos x (by simp [hx]))
        (by simp at hfuel; omega)
      have e : N = got.length + (N - got.length) := by omega
      simp only [readAll, hR]
      refine ⟨?_, ?_, r3, by rw [r4, q4], r5, by rw [r6, q7]⟩
      · rw [r1]
        simp only
        conv_rhs => rw [q5, e, List.take_append]
      · rw [r2]
        conv_rhs => rw [q5, e, List.drop_append]

/-! ### The writing stream and `SendMessage` -/

/-- A write that reports no error appended the whole buffer. -/
theorem OutStream.Write_ok (w : OutStream) (p : List Byte) (h : (w.Write p).1.2 = none) :
    (w.Write p).2.written = w.written ++ p ∧
      (w.Write p).2.writeCalls = w.writeCalls + 1 := by
  unfold OutStream.Write at h ⊢
  by_cases hc : w.closed = true
  · simp [hc] at h
  · cases hb : w.budget with
    | none => simp [hc, hb]
    | some b =>
      by_cases hl : p.length ≤ b
      · simp [hc, hb, hl]
      · simp [hc, hb, hl] at h

/-- A stream that accepts every byte takes the whole buffer and stays so. -/
theorem OutStream.Write_accepting (w : OutStream) (p : List Byte)
    (hc : w.closed = false) (hb : w.budget = none) :
    (w.Write p).1.2 = none ∧ (w.Write p).2.closed = false ∧ (w.Write p).2.budget = none := by
  unfold OutStream.Write
  simp [hc, hb]

/-- The first two writes of `SendMessage` decide whether the third is made. -/
theorem SendMessage_ok (m : messageReadWriter) (t : MessageType)
    (payload : Option (List Byte)) (h : (SendMessage m t payload).1 = none) :
    (SendMessage m t payload).2.Writer.written =
        m.Writer.written ++ PutUint32 (t % 2 ^ 32) ++
          PutUint32 (payloadLen payload % 2 ^ 32) ++ payloadBytes payload ∧
      (SendMessage m t payload).2.Writer.writeCalls =
        m.Writer.writeCalls + (if payload = none then 2 else 3) ∧
      (SendMessage m t payload).2.Reader = m.Reader ∧
      (SendMessage m t payload).2.lastPayloadReader = m.lastPayloadReader := by
  unfold SendMessage at h ⊢
  rcases h1 : m.Writer.Write (PutUint32 (t % 2 ^ 32)) with ⟨⟨n1, e1⟩, w1⟩
  rw [h1] at h
  cases e1 with
  | some e => simp at h
  | none =>
    have k1 := OutStream.Write_ok m.Writer _ (by rw [h1])
    rw [h1] at k1
    simp only at h k1 ⊢
    rcases h2 : w1.Write (PutUint32 (payloadLen payload % 2 ^ 32)) with ⟨⟨n2, e2⟩, w2⟩
    rw [h2] at h
    cases e2 with
    | some e => simp at h
    | none =>
      have k2 := OutStream.Write_ok w1 _ (by rw [h2])
      rw [h2] at k2
      simp only at h k2 ⊢
      cases payload with
      | none =>
        simp [payloadBytes, k2.1, k2.2, k1.1, k1.2]
      | some p =>
        simp only at h ⊢
        have k3 := OutStream.Write_ok w2 p h
        simp [payloadBytes, k3.1, k3.2, k2.1, k2.2, k1.1, k1.2]

/-- On a stream that accepts every byte `SendMessage` succeeds. -/
theorem SendMessage_accepting (m : messageReadWriter) (t : MessageType)
    (payload : Option (List Byte)) (hc : m.Writer.closed = false)
    (hb : m.Writer.budget = none) :
    (SendMessage m t payload).1 = none ∧
      (SendMessage m t payload).2.Writer.closed = false ∧
      (SendMessage m t payload).2.Writer.budget = none := by
  unfold SendMessage
  obtain ⟨a1, a2, a3⟩ := OutStream.Write_accepting m.Writer (PutUint32 (t % 2 ^ 32)) hc hb
  rcases h1 : m.Writer.Write (PutUint32 (t % 2 ^ 32)) with ⟨⟨n1, e1⟩, w1⟩
  rw [h1] at a1 a2 a3
  simp only at a1 a2 a3
  subst a1
  simp only
  obtain ⟨b1, b2, b3⟩ :=
    OutStream.Write_accepting w1 (PutUint32 (payloadLen payload % 2 ^ 32)) a2 a3
  rcases h2 : w1.Write (PutUint32 (payloadLen payload % 2 ^ 32)) with ⟨⟨n2, e2⟩, w2⟩
  rw [h2] at b1 b2 b3
  simp only at b1 b2 b3
  subst b1
  simp only
  cases payload with
  | none => exact ⟨rfl, b2, b3⟩
  | some p => exact OutStream.Write_accepting w2 p b2 b3

/-! ### Sequences of reads through the payload reader -/

/-- Bookkeeping of a sequence of reads: the counter went down by the number of
bytes returned, and never below zero. -/
theorem readPayloads_some (lens : List Nat) : ∀ (m : messageReadWriter) (l : LimitedReader),
    m.lastPayloadReader = some l → 0 ≤ l.N →
    (readPayloads m lens).2.lastPayloadReader =
        some ⟨l.N - ((returnedBytes (readPayloads m lens).1).length : Int)⟩ ∧
      ((returnedBytes (readPayloads m lens).1).length : Int) ≤ l.N ∧
      (readPayloads m lens).2.Writer = m.Writer ∧
      m.Reader.data =
        returnedBytes (readPayloads m lens).1 ++ (readPayloads m lens).2.Reader.data := by
  induction lens with
  | nil =>
    intro m l h h0
    simp [readPayloads, returnedBytes, h, h0]
  | cons n ns ih =>
    intro m l h h0
    obtain ⟨q1, _, q3, q4, q5, _, _⟩ := readPayload_some m l n h
    have q3 := q3 h0
    obtain ⟨r1, r2, r3, r4⟩ := ih (readPayload m n).2 _ q1 (by simp only; omega)
    simp only [readPayloads, returnedBytes, List.length_append]
    refine ⟨?_, ?_, by rw [r3, q4], ?_⟩
    · rw [r1]
      simp only [Nat.cast_add]
      congr 2
      omega
    · simp only at r2
      simp only [Nat.cast_add]
      omega
    · rw [List.append_assoc, ← r4, ← q5]

/-! ## The claims -/

theorem PutUint32_eq_LE32 (v : Nat) : PutUint32 v = LE32 v := by
  simp [PutUint32, LE32, Nat.shiftRight_eq_div_pow]

theorem Uint32_eq_value (b0 b1 b2 b3 : Byte) :
    Uint32 [b0, b1, b2, b3] = LE32.value b0 b1 b2 b3 := by
  rw [Uint32_eq]; rfl

theorem payloadBytes_length (payload : Option (List Byte)) :
    (payloadBytes payload).length = payloadLen payload := by
  cases payload <;> rfl

/-- A successful `RecvMessage` stored the reader it returned, with a counter
that is a 32-bit value. -/
theorem RecvMessage_success (m : messageReadWriter) (t : MessageType) (l : LimitedReader)
    (h : (RecvMessage m).1 = (t, some l, none)) :
    (RecvMessage m).2.lastPayloadReader = some l ∧ 0 ≤ l.N ∧ l.N < 2 ^ 32 ∧
      (RecvMessage m).2.Writer = m.Writer := by
  by_cases hp : payloadPending m = true
  · rw [RecvMessage_pending m hp] at h
    simp at h
  · rcases h1 : ReadFull m.Reader 4 with ⟨buf, e1, r1⟩
    cases e1 with
    | some e => simp [RecvMessage, hp, h1] at h
    | none =>
      rcases h2 : ReadFull r1 4 with ⟨buf2, e2, r2⟩
      cases e2 with
      | some e => simp [RecvMessage, hp, h1, h2] at h
      | none =>
        have key : RecvMessage m =
            ((Uint32 buf, some ⟨(Uint32 buf2 : Int)⟩, none),
              { m with Reader := r2, lastPayloadReader := some ⟨(Uint32 buf2 : Int)⟩ }) := by
          simp [RecvMessage, hp, h1, h2]
        rw [key] at h ⊢
        simp only [Prod.mk.injEq, Option.some.injEq, and_true] at h
        obtain ⟨_, hl⟩ := h
        subst hl
        have := Uint32_lt buf2
        refine ⟨rfl, by simp, ?_, rfl⟩
        simp only
        exact_mod_cast this

/-- A frame at the head of an open stream: on an idle channel `RecvMessage`
returns its type and a reader for its declared length, and leaves what follows
the header on the stream. -/
theorem RecvMessage_frame (peer : messageReadWriter) (t n : Nat) (rest : List Byte)
    (ht : t < 2 ^ 32) (hn : n < 2 ^ 32)
    (hidle : payloadPending peer = false) (hc : peer.Reader.closed = false)
    (hd : peer.Reader.data = PutUint32 t ++ (PutUint32 n ++ rest)) :
    ∃ r2 : InStream,
      RecvMessage peer =
        ((t, some ⟨(n : Int)⟩, none),
          { peer with Reader := r2, lastPayloadReader := some ⟨(n : Int)⟩ }) ∧
      r2.data = rest ∧ r2.closed = false ∧ r2.endErr = peer.Reader.endErr := by
  have hd1 : peer.Reader.data =
      toByte t :: toByte (t >>> 8) :: toByte (t >>> 16) :: toByte (t >>> 24) ::
      toByte n :: toByte (n >>> 8) :: toByte (n >>> 16) :: toByte (n >>> 24) :: rest := by
    rw [hd]; rfl
  obtain ⟨r2, e, d2, c2, n2⟩ := RecvMessage_header peer _ _ _ _ _ _ _ _ _ hidle hc hd1
  have ut : Uint32 [toByte t, toByte (t >>> 8), toByte (t >>> 16), toByte (t >>> 24)] = t := by
    have := Uint32_PutUint32 t ht []
    simpa [PutUint32] using this
  have ul : Uint32 [toByte n, toByte (n >>> 8), toByte (n >>> 16), toByte (n >>> 24)] = n := by
    have := Uint32_PutUint32 n hn []
    simpa [PutUint32] using this
  rw [ut, ul] at e
  exact ⟨r2, e, d2, c2, n2⟩

/-- C1 (round trip): for every 32-bit message type `t` and every payload of
fewer than `2 ^ 32` bytes (nil and empty included), `SendMessage` on a writer
that accepts every byte succeeds, and when the bytes it wrote are the stream of
a fresh channel, `RecvMessage` there returns `t`, a reader and no error, and
reading that reader to exhaustion yields exactly the payload. -/
theorem C1_round_trip (m peer : messageReadWriter) (t : MessageType)
    (payload : Option (List Byte)) (bufs : List Nat)
    (ht : t < 2 ^ 32) (hp : payloadLen payload < 2 ^ 32)
    (hwc : m.Writer.closed = false) (hwb : m.Writer.budget = none)
    (hfresh : peer.lastPayloadReader = none) (hrc : peer.Reader.closed = false)
    (hdata : (SendMessage m t payload).2.Writer.written =
      m.Writer.written ++ peer.Reader.data)
    (hbufs : ∀ b ∈ bufs, 0 < b) (hfuel : payloadLen payload < bufs.length) :
    (SendMessage m t payload).1 = none ∧
    (RecvMessage peer).1 = (t, some ⟨(payloadLen payload : Int)⟩, none) ∧
    (readAll (RecvMessage peer).2 bufs).1 = (payloadBytes payload, some Error.EOF) := by
  obtain ⟨hs, _, _⟩ := SendMessage_accepting m t payload hwc hwb
  obtain ⟨hw, _, _, _⟩ := SendMessage_ok m t payload hs
  rw [hw, Nat.mod_eq_of_lt ht, Nat.mod_eq_of_lt hp, List.append_assoc, List.append_assoc] at hdata
  have hd := (List.append_cancel_left hdata).symm
  have hidle : payloadPending peer = false := by simp [payloadPending, hfresh]
  obtain ⟨r2, e, d2, c2, _⟩ :=
    RecvMessage_frame peer t (payloadLen payload) (payloadBytes payload) ht hp hidle hrc hd
  refine ⟨hs, by rw [e], ?_⟩
  rw [e]
  obtain ⟨q, _⟩ := readAll_drains bufs
    { peer with Reader := r2, lastPayloadReader := some ⟨(payloadLen payload : Int)⟩ }
    (payloadLen payload) rfl c2 (by simp [d2, payloadBytes_length]) hbufs hfuel
  rw [q]
  simp [d2, ← payloadBytes_length]

/-- C1 at a concrete input: `SendMessage(CONFIGURE, [7 8 9])`, received from a
stream that hands the frame out in pieces of one, three and more bytes. -/
theorem C1_round_trip_witness :
    (SendMessage (messageReadWriter.fresh (InStream.ofBytes [] []) OutStream.accepting)
        MessageTypeConfigure (some [7, 8, 9])).1 = none ∧
    (RecvMessage (messageReadWriter.fresh
        (InStream.ofBytes [1, 0, 0, 0, 3, 0, 0, 0, 7, 8, 9] [0, 2]) OutStream.accepting)).1 =
      (MessageTypeConfigure, some ⟨3⟩, none) ∧
    (readAll (RecvMessage (messageReadWriter.fresh
        (InStream.ofBytes [1, 0, 0, 0, 3, 0, 0, 0, 7, 8, 9] [0, 2]) OutStream.accepting)).2
        [2, 2, 2, 2]).1 = ([7, 8, 9], some Error.EOF) :=
  C1_round_trip (messageReadWriter.fresh (InStream.ofBytes [] []) OutStream.accepting)
    (messageReadWriter.fresh
        (InStream.ofBytes [1, 0, 0, 0, 3, 0, 0, 0, 7, 8, 9] [0, 2]) OutStream.accepting)
    MessageTypeConfigure (some [7, 8, 9]) [2, 2, 2, 2]
    (by decide) (by decide) rfl rfl rfl rfl (by decide) (by decide) (by decide)

/-- C2 (wire format): for every 32-bit message type and every payload of fewer
than `2 ^ 32` bytes, a `SendMessage` whose writes all succeed (as they do on a
stream that accepts every byte) appends exactly
`LE32 t ++ LE32 (len payload) ++ payload`: `8 + len payload` bytes, the type at
offset 0, the length at offset 4, the payload at offset 8. -/
theorem C2_wire_format (m : messageReadWriter) (t : MessageType)
    (payload : Option (List Byte)) (ht : t < 2 ^ 32) (hp : payloadLen payload < 2 ^ 32) :
    (m.Writer.closed = false → m.Writer.budget = none →
      (SendMessage m t payload).1 = none) ∧
    ((SendMessage m t payload).1 = none →
      (SendMessage m t payload).2.Writer.written =
        m.Writer.written ++ (LE32 t ++ LE32 (payloadLen payload) ++ payloadBytes payload) ∧
      (LE32 t ++ LE32 (payloadLen payload) ++ payloadBytes payload).length =
        8 + payloadLen payload ∧
      (LE32 t ++ LE32 (payloadLen payload) ++ payloadBytes payload).take 4 = LE32 t ∧
      ((LE32 t ++ LE32 (payloadLen payload) ++ payloadBytes payload).drop 4).take 4 =
        LE32 (payloadLen payload) ∧
      (LE32 t ++ LE32 (payloadLen payload) ++ payloadBytes payload).drop 8 =
        payloadBytes payload) := by
  refine ⟨fun hc hb => (SendMessage_accepting m t payload hc hb).1, fun hs => ?_⟩
  obtain ⟨hw, _, _, _⟩ := SendMessage_ok m t payload hs
  rw [Nat.mod_eq_of_lt ht, Nat.mod_eq_of_lt hp, PutUint32_eq_LE32, PutUint32_eq_LE32] at hw
  refine ⟨by rw [hw]; simp, ?_, ?_, ?_, ?_⟩
  · simp [LE32, payloadBytes_length]; omega
  · simp [LE32]
  · simp [LE32]
  · simp [LE32]

/-- C2 at a concrete input: `SendMessage(CONFIGURE_RESULT, [170 187])` on a
stream that accepts every byte. -/
theorem C2_wire_format_witness :
    (SendMessage (messageReadWriter.fresh (InStream.ofBytes [] []) OutStream.accepting)
        MessageTypeConfigureResult (some [170, 187])).1 = none ∧
    (SendMessage (messageReadWriter.fresh (InStream.ofBytes [] []) OutStream.accepting)
        MessageTypeConfigureResult (some [170, 187])).2.Writer.written =
      [] ++ ([2, 0, 0, 0] ++ [2, 0, 0, 0] ++ [170, 187]) :=
  ⟨(C2_wire_format (messageReadWriter.fresh (InStream.ofBytes [] []) OutStream.accepting)
      MessageTypeConfigureResult (some [170, 187]) (by decide) (by decide)).1 rfl rfl,
   ((C2_wire_format (messageReadWriter.fresh (InStream.ofBytes [] []) OutStream.accepting)
      MessageTypeConfigureResult (some [170, 187]) (by decide) (by decide)).2
        (by decide)).1⟩

/-- C3 (header parsing): on an idle channel whose open stream starts with the
eight bytes `h0 .. h7`, `RecvMessage` succeeds, returns as type the
little-endian value of `h0 .. h3` whatever it is, takes exactly those eight
bytes off the stream, and, when at least `n` bytes follow (`n` the
little-endian value of `h4 .. h7`), returns a reader that yields exactly the
next `n` bytes and leaves what follows them on the stream. -/
theorem C3_header_parsing (m : messageReadWriter) (h0 h1 h2 h3 h4 h5 h6 h7 : Byte)
    (rest : List Byte) (bufs : List Nat)
    (hidle : payloadPending m = false) (hc : m.Reader.closed = false)
    (hd : m.Reader.data = h0 :: h1 :: h2 :: h3 :: h4 :: h5 :: h6 :: h7 :: rest)
    (hn : LE32.value h4 h5 h6 h7 ≤ rest.length)
    (hbufs : ∀ b ∈ bufs, 0 < b) (hfuel : LE32.value h4 h5 h6 h7 < bufs.length) :
    (RecvMessage m).1 =
      (LE32.value h0 h1 h2 h3, some ⟨(LE32.value h4 h5 h6 h7 : Int)⟩, none) ∧
    (RecvMessage m).2.Reader.data = rest ∧
    (readAll (RecvMessage m).2 bufs).1 =
      (rest.take (LE32.value h4 h5 h6 h7), some Error.EOF) ∧
    (readAll (RecvMessage m).2 bufs).2.Reader.data =
      rest.drop (LE32.value h4 h5 h6 h7) := by
  obtain ⟨r2, e, d2, c2, _⟩ := RecvMessage_header m _ _ _ _ _ _ _ _ _ hidle hc hd
  rw [Uint32_eq_value, Uint32_eq_value] at e
  rw [e]
  obtain ⟨q1, q2, _⟩ := readAll_drains bufs
    { m with Reader := r2, lastPayloadReader := some ⟨(LE32.value h4 h5 h6 h7 : Int)⟩ }
    (LE32.value h4 h5 h6 h7) rfl c2 (by simp [d2, hn]) hbufs hfuel
  refine ⟨rfl, d2, ?_, ?_⟩
  · rw [q1]; simp [d2]
  · rw [q2]; simp [d2]

/-- C3 at the input of the specification: `01 00 00 00 05 00 00 00`, five
payload bytes, and two more bytes behind them. -/
theorem C3_header_parsing_witness :
    (RecvMessage (messageReadWriter.fresh
        (InStream.ofBytes [1, 0, 0, 0, 5, 0, 0, 0, 11, 12, 13, 14, 15, 16, 17] [1])
        OutStream.accepting)).1 = (MessageTypeConfigure, some ⟨5⟩, none) ∧
    (RecvMessage (messageReadWriter.fresh
        (InStream.ofBytes [1, 0, 0, 0, 5, 0, 0, 0, 11, 12, 13, 14, 15, 16, 17] [1])
        OutStream.accepting)).2.Reader.data = [11, 12, 13, 14, 15, 16, 17] ∧
    (readAll (RecvMessage (messageReadWriter.fresh
        (InStream.ofBytes [1, 0, 0, 0, 5, 0, 0, 0, 11, 12, 13, 14, 15, 16, 17] [1])
        OutStream.accepting)).2 [3, 3, 3, 3, 3, 3]).1 =
      ([11, 12, 13, 14, 15], some Error.EOF) ∧
    (readAll (RecvMessage (messageReadWriter.fresh
        (InStream.ofBytes [1, 0, 0, 0, 5, 0, 0, 0, 11, 12, 13, 14, 15, 16, 17] [1])
        OutStream.accepting)).2 [3, 3, 3, 3, 3, 3]).2.Reader.data = [16, 17] :=
  C3_header_parsing (messageReadWriter.fresh
        (InStream.ofBytes [1, 0, 0, 0, 5, 0, 0, 0, 11, 12, 13, 14, 15, 16, 17] [1])
        OutStream.accepting) 1 0 0 0 5 0 0 0 [11, 12, 13, 14, 15, 16, 17] [3, 3, 3, 3, 3, 3]
    rfl rfl rfl (by decide) (by decide) (by decide)

/-- C4 (draining invariant): after `RecvMessage` returned a payload reader of
declared length `l.N`, and after any sequence of reads through it,
(a) when fewer than `l.N` bytes were returned in total, the next `RecvMessage`
fails with the state error and leaves the channel as it is;
(b) when exactly `l.N` bytes were returned, the state check of the next
`RecvMessage` passes, and the call succeeds when the open stream holds a
further complete 8-byte header. -/
theorem C4_draining_invariant (m : messageReadWriter) (t : MessageType) (l : LimitedReader)
    (lens : List Nat) (hrecv : (RecvMessage m).1 = (t, some l, none)) :
    (((returnedBytes (readPayloads (RecvMessage m).2 lens).1).length : Int) < l.N →
      RecvMessage (readPayloads (RecvMessage m).2 lens).2 =
        ((MessageTypeNone, none, some Error.lastPayloadNotFullyRead),
          (readPayloads (RecvMessage m).2 lens).2)) ∧
    (((returnedBytes (readPayloads (RecvMessage m).2 lens).1).length : Int) = l.N →
      payloadPending (readPayloads (RecvMessage m).2 lens).2 = false ∧
      ∀ (b0 b1 b2 b3 b4 b5 b6 b7 : Byte) (rest : List Byte),
        (readPayloads (RecvMessage m).2 lens).2.Reader.closed = false →
        (readPayloads (RecvMessage m).2 lens).2.Reader.data =
          b0 :: b1 :: b2 :: b3 :: b4 :: b5 :: b6 :: b7 :: rest →
        (RecvMessage (readPayloads (RecvMessage m).2 lens).2).1 =
          (LE32.value b0 b1 b2 b3, some ⟨(LE32.value b4 b5 b6 b7 : Int)⟩, none)) := by
  obtain ⟨hl, h0, _, _⟩ := RecvMessage_success m t l hrecv
  obtain ⟨r1, _, _, _⟩ := readPayloads_some lens (RecvMessage m).2 l hl h0
  constructor
  · intro hlt
    apply RecvMessage_pending
    rw [payloadPending_iff]
    exact ⟨_, r1, by simp only; omega⟩
  · intro heq
    have hidle : payloadPending (readPayloads (RecvMessage m).2 lens).2 = false := by
      simp [payloadPending, r1, heq]
    refine ⟨hidle, ?_⟩
    intro b0 b1 b2 b3 b4 b5 b6 b7 rest hc hd
    obtain ⟨r2, e, _, _, _⟩ := RecvMessage_header _ _ _ _ _ _ _ _ _ _ hidle hc hd
    rw [e, Uint32_eq_value, Uint32_eq_value]

/-- C4 at a concrete input: a frame of three payload bytes followed by an
empty `LOG` frame; after one read of two bytes the next `RecvMessage` is
rejected, after a further read of five bytes it returns the `LOG` frame. -/
theorem C4_draining_invariant_witness :
    RecvMessage (readPayloads (RecvMessage (messageReadWriter.fresh
        (InStream.ofBytes [1, 0, 0, 0, 3, 0, 0, 0, 7, 8, 9, 4, 0, 0, 0, 0, 0, 0, 0] [])
        OutStream.accepting)).2 [2]).2 =
      ((MessageTypeNone, none, some Error.lastPayloadNotFullyRead),
        (readPayloads (RecvMessage (messageReadWriter.fresh
          (InStream.ofBytes [1, 0, 0, 0, 3, 0, 0, 0, 7, 8, 9, 4, 0, 0, 0, 0, 0, 0, 0] [])
          OutStream.accepting)).2 [2]).2) ∧
    (RecvMessage (readPayloads (RecvMessage (messageReadWriter.fresh
        (InStream.ofBytes [1, 0, 0, 0, 3, 0, 0, 0, 7, 8, 9, 4, 0, 0, 0, 0, 0, 0, 0] [])
        OutStream.accepting)).2 [2, 5]).2).1 = (MessageTypeLog, some ⟨0⟩, none) :=
  ⟨(C4_draining_invariant (messageReadWriter.fresh
        (InStream.ofBytes [1, 0, 0, 0, 3, 0, 0, 0, 7, 8, 9, 4, 0, 0, 0, 0, 0, 0, 0] [])
        OutStream.accepting) MessageTypeConfigure ⟨3⟩ [2] rfl).1 (by decide),
   ((C4_draining_invariant (messageReadWriter.fresh
        (InStream.ofBytes [1, 0, 0, 0, 3, 0, 0, 0, 7, 8, 9, 4, 0, 0, 0, 0, 0, 0, 0] [])
        OutStream.accepting) MessageTypeConfigure ⟨3⟩ [2, 5] rfl).2 (by decide)).2
      4 0 0 0 0 0 0 0 [] rfl rfl⟩

/-- C5 (atomicity of the state error): when the payload reader returned last
still has unread bytes, `RecvMessage` fails with the state error, and the
channel afterwards is the channel before: no `Read` reached the stream, and
stream, pending cursor and writer are unchanged. -/
theorem C5_state_error_atomic (m : messageReadWriter) (l : LimitedReader)
    (h : m.lastPayloadReader = some l) (hN : 0 < l.N) :
    RecvMessage m = ((MessageTypeNone, none, some Error.lastPayloadNotFullyRead), m) ∧
    (RecvMessage m).2.Reader.readCalls = m.Reader.readCalls := by
  have hp : payloadPending m = true := (payloadPending_iff m).mpr ⟨l, h, hN⟩
  rw [RecvMessage_pending m hp]
  exact ⟨rfl, rfl⟩

/-- C5 at a concrete input: two payload bytes are still unread while a
complete header waits on the stream. -/
theorem C5_state_error_atomic_witness :
    RecvMessage { Reader := InStream.ofBytes [4, 0, 0, 0, 0, 0, 0, 0] [],
                  Writer := OutStream.accepting, lastPayloadReader := some ⟨2⟩ } =
      ((MessageTypeNone, none, some Error.lastPayloadNotFullyRead),
        { Reader := InStream.ofBytes [4, 0, 0, 0, 0, 0, 0, 0] [],
          Writer := OutStream.accepting, lastPayloadReader := some ⟨2⟩ }) ∧
    (RecvMessage { Reader := InStream.ofBytes [4, 0, 0, 0, 0, 0, 0, 0] [],
                   Writer := OutStream.accepting,
                   lastPayloadReader := some ⟨2⟩ }).2.Reader.readCalls = 0 :=
  C5_state_error_atomic { Reader := InStream.ofBytes [4, 0, 0, 0, 0, 0, 0, 0] [],
                          Writer := OutStream.accepting, lastPayloadReader := some ⟨2⟩ }
    ⟨2⟩ rfl (by decide)

/-- C6 (bounded payload reader): for the reader returned by a successful
`RecvMessage` with declared length `l.N`, after any sequence of reads, a
further read returns at most the declared bytes still unread (and at most the
buffer length), the bytes returned in total are at most `l.N`, and once `l.N`
bytes were returned a further read reports `io.EOF`, returns nothing and leaves
the whole channel, the underlying stream included, as it is. -/
theorem C6_bounded_reader (m : messageReadWriter) (t : MessageType) (l : LimitedReader)
    (lens : List Nat) (n : Nat) (hrecv : (RecvMessage m).1 = (t, some l, none)) :
    (((readPayload (readPayloads (RecvMessage m).2 lens).2 n).1.1.length : Int) ≤
      l.N - ((returnedBytes (readPayloads (RecvMessage m).2 lens).1).length : Int)) ∧
    (readPayload (readPayloads (RecvMessage m).2 lens).2 n).1.1.length ≤ n ∧
    ((returnedBytes (readPayloads (RecvMessage m).2 lens).1).length : Int) ≤ l.N ∧
    (((returnedBytes (readPayloads (RecvMessage m).2 lens).1).length : Int) = l.N →
      readPayload (readPayloads (RecvMessage m).2 lens).2 n =
        (([], some Error.EOF), (readPayloads (RecvMessage m).2 lens).2)) := by
  obtain ⟨hl, h0, _, _⟩ := RecvMessage_success m t l hrecv
  obtain ⟨r1, r2, _, _⟩ := readPayloads_some lens (RecvMessage m).2 l hl h0
  obtain ⟨_, q2, q3, _⟩ := readPayload_some _ _ n r1
  refine ⟨q3 (by simp only; omega), q2, r2, ?_⟩
  intro heq
  exact readPayload_done _ _ n r1 (by simp only; omega)

/-- C6 at a concrete input: declared length 2 with five more bytes behind the
payload; after reads of one and four bytes a read of three bytes gets nothing. -/
theorem C6_bounded_reader_witness :
    (returnedBytes (readPayloads (RecvMessage (messageReadWriter.fresh
        (InStream.ofBytes [1, 0, 0, 0, 2, 0, 0, 0, 7, 8, 9, 9, 9, 9, 9] [])
        OutStream.accepting)).2 [1, 4]).1) = [7, 8] ∧
    readPayload (readPayloads (RecvMessage (messageReadWriter.fresh
        (InStream.ofBytes [1, 0, 0, 0, 2, 0, 0, 0, 7, 8, 9, 9, 9, 9, 9] [])
        OutStream.accepting)).2 [1, 4]).2 3 =
      (([], some Error.EOF), (readPayloads (RecvMessage (messageReadWriter.fresh
        (InStream.ofBytes [1, 0, 0, 0, 2, 0, 0, 0, 7, 8, 9, 9, 9, 9, 9] [])
        OutStream.accepting)).2 [1, 4]).2) ∧
    (readPayloads (RecvMessage (messageReadWriter.fresh
        (InStream.ofBytes [1, 0, 0, 0, 2, 0, 0, 0, 7, 8, 9, 9, 9, 9, 9] [])
        OutStream.accepting)).2 [1, 4]).2.Reader.data = [9, 9, 9, 9, 9] :=
  ⟨by decide,
   (C6_bounded_reader (messageReadWriter.fresh
        (InStream.ofBytes [1, 0, 0, 0, 2, 0, 0, 0, 7, 8, 9, 9, 9, 9, 9] [])
        OutStream.accepting) MessageTypeConfigure ⟨2⟩ [1, 4] 3 rfl).2.2.2 (by decide),
   by decide⟩

/-- C7 (zero-length payload, as amended): for every 32-bit message type and a
nil or empty payload, `SendMessage` on a stream that accepts every byte appends
exactly the eight bytes `LE32 t ++ 00 00 00 00`; for a nil payload it makes two
writes and no payload write, for an empty payload that is not nil it makes a
third `Write` call, of zero bytes; `RecvMessage` on those bytes returns the
type and a reader whose first read, of any buffer length, reports `io.EOF`
with no byte and changes nothing; the channel is idle at once, so the state
check of a following `RecvMessage` passes. -/
theorem C7_zero_length_payload (m peer : messageReadWriter) (t : MessageType)
    (payload : Option (List Byte)) (n : Nat) (ht : t < 2 ^ 32)
    (hp : payload = none ∨ payload = some [])
    (hwc : m.Writer.closed = false) (hwb : m.Writer.budget = none)
    (hfresh : peer.lastPayloadReader = none) (hrc : peer.Reader.closed = false)
    (hdata : (SendMessage m t payload).2.Writer.written =
      m.Writer.written ++ peer.Reader.data) :
    (SendMessage m t payload).1 = none ∧
    (SendMessage m t payload).2.Writer.written = m.Writer.written ++ (LE32 t ++ [0, 0, 0, 0]) ∧
    (payload = none →
      (SendMessage m t payload).2.Writer.writeCalls = m.Writer.writeCalls + 2) ∧
    (payload = some [] →
      (SendMessage m t payload).2.Writer.writeCalls = m.Writer.writeCalls + 3) ∧
    (RecvMessage peer).1 = (t, some ⟨0⟩, none) ∧
    readPayload (RecvMessage peer).2 n = (([], some Error.EOF), (RecvMessage peer).2) ∧
    payloadPending (RecvMessage peer).2 = false := by
  have hlen : payloadLen payload = 0 := by rcases hp with h | h <;> simp [h, payloadLen]
  have hbytes : payloadBytes payload = [] := by
    rcases hp with h | h <;> simp [h, payloadBytes]
  obtain ⟨hs, _, _⟩ := SendMessage_accepting m t payload hwc hwb
  obtain ⟨hw, hcalls, _, _⟩ := SendMessage_ok m t payload hs
  have hd := hdata
  rw [hw, hlen, hbytes, Nat.mod_eq_of_lt ht, List.append_assoc, List.append_assoc] at hd
  have hd := (List.append_cancel_left hd).symm
  have hidle : payloadPending peer = false := by simp [payloadPending, hfresh]
  obtain ⟨r2, e, _, _, _⟩ := RecvMessage_frame peer t 0 [] ht (by decide) hidle hrc hd
  have h2 : (RecvMessage peer).1 = (t, some ⟨0⟩, none) := by rw [e]; rfl
  obtain ⟨hl, _, _, _⟩ := RecvMessage_success peer t ⟨0⟩ h2
  refine ⟨hs, ?_, ?_, ?_, h2, ?_, ?_⟩
  · rw [hw, hlen, hbytes, Nat.mod_eq_of_lt ht, PutUint32_eq_LE32]
    simp
    rfl
  · intro hnone
    rw [hcalls, if_pos hnone]
  · intro hempty
    rw [hcalls, if_neg (by rw [hempty]; simp)]
  · exact readPayload_done _ ⟨0⟩ n hl (by simp)
  · simp [payloadPending, hl]

/-- C7 at the input of the specification, `SendMessage(LOG, nil)`, and at
`SendMessage(LOG, [])` with an empty payload that is not nil. -/
theorem C7_zero_length_payload_witness :
    (SendMessage (messageReadWriter.fresh (InStream.ofBytes [] []) OutStream.accepting)
        MessageTypeLog none).2.Writer.written = [] ++ ([4, 0, 0, 0] ++ [0, 0, 0, 0]) ∧
    (SendMessage (messageReadWriter.fresh (InStream.ofBytes [] []) OutStream.accepting)
        MessageTypeLog none).2.Writer.writeCalls = 0 + 2 ∧
    (SendMessage (messageReadWriter.fresh (InStream.ofBytes [] []) OutStream.accepting)
        MessageTypeLog (some [])).2.Writer.written = [] ++ ([4, 0, 0, 0] ++ [0, 0, 0, 0]) ∧
    (SendMessage (messageReadWriter.fresh (InStream.ofBytes [] []) OutStream.accepting)
        MessageTypeLog (some [])).2.Writer.writeCalls = 0 + 3 ∧
    (RecvMessage (messageReadWriter.fresh (InStream.ofBytes [4, 0, 0, 0, 0, 0, 0, 0] [])
        OutStream.accepting)).1 = (MessageTypeLog, some ⟨0⟩, none) ∧
    (readPayload (RecvMessage (messageReadWriter.fresh
        (InStream.ofBytes [4, 0, 0, 0, 0, 0, 0, 0] []) OutStream.accepting)).2 16).1 =
      ([], some Error.EOF) :=
  ⟨(C7_zero_length_payload
      (messageReadWriter.fresh (InStream.ofBytes [] []) OutStream.accepting)
      (messageReadWriter.fresh (InStream.ofBytes [4, 0, 0, 0, 0, 0, 0, 0] [])
        OutStream.accepting)
      MessageTypeLog none 16 (by decide) (Or.inl rfl) rfl rfl rfl rfl rfl).2.1,
   (C7_zero_length_payload
      (messageReadWriter.fresh (InStream.ofBytes [] []) OutStream.accepting)
      (messageReadWriter.fresh (InStream.ofBytes [4, 0, 0, 0, 0, 0, 0, 0] [])
        OutStream.accepting)
      MessageTypeLog none 16 (by decide) (Or.inl rfl) rfl rfl rfl rfl rfl).2.2.1 rfl,
   (C7_zero_length_payload
      (messageReadWriter.fresh (InStream.ofBytes [] []) OutStream.accepting)
      (messageReadWriter.fresh (InStream.ofBytes [4, 0, 0, 0, 0, 0, 0, 0] [])
        OutStream.accepting)
      MessageTypeLog (some []) 16 (by decide) (Or.inr rfl) rfl rfl rfl rfl rfl).2.1,
   (C7_zero_length_payload
      (messageReadWriter.fresh (InStream.ofBytes [] []) OutStream.accepting)
      (messageReadWriter.fresh (InStream.ofBytes [4, 0, 0, 0, 0, 0, 0, 0] [])
        OutStream.accepting)
      MessageTypeLog (some []) 16 (by decide) (Or.inr rfl) rfl rfl rfl rfl rfl).2.2.2.1 rfl,
   (C7_zero_length_payload
      (messageReadWriter.fresh (InStream.ofBytes [] []) OutStream.accepting)
      (messageReadWriter.fresh (InStream.ofBytes [4, 0, 0, 0, 0, 0, 0, 0] [])
        OutStream.accepting)
      MessageTypeLog none 16 (by decide) (Or.inl rfl) rfl rfl rfl rfl rfl).2.2.2.2.1,
   by decide⟩

/-- C7 as stated fails: `SendMessage(LOG, [])`, with an empty payload that is
not nil, succeeds and appends the same eight bytes, but makes three `Write`
calls, the third being the payload write that `SendMessage(LOG, nil)`, with
two calls, does not make. -/
theorem C7_counterexample :
    (SendMessage (messageReadWriter.fresh (InStream.ofBytes [] []) OutStream.accepting)
        MessageTypeLog (some [])).1 = none ∧
    (SendMessage (messageReadWriter.fresh (InStream.ofBytes [] []) OutStream.accepting)
        MessageTypeLog (some [])).2.Writer.written = [4, 0, 0, 0, 0, 0, 0, 0] ∧
    (SendMessage (messageReadWriter.fresh (InStream.ofBytes [] []) OutStream.accepting)
        MessageTypeLog (some [])).2.Writer.writeCalls = 3 ∧
    (SendMessage (messageReadWriter.fresh (InStream.ofBytes [] []) OutStream.accepting)
        MessageTypeLog (some [])).2.Writer =
      (payloadWrite (messageReadWriter.fresh (InStream.ofBytes [] []) OutStream.accepting)
        MessageTypeLog []).2 ∧
    (SendMessage (messageReadWriter.fresh (InStream.ofBytes [] []) OutStream.accepting)
        MessageTypeLog none).2.Writer.writeCalls = 2 := by
  decide

/-- C8 (truncated header): on an idle channel whose open stream ends cleanly
after fewer than eight bytes, `RecvMessage` fails with `io.EOF` or
`io.ErrUnexpectedEOF`, returns no reader, leaves the pending cursor as it was,
and a following `RecvMessage` passes the state check and reports `io.EOF`. -/
theorem C8_truncated_header (m : messageReadWriter) (hidle : payloadPending m = false)
    (hc : m.Reader.closed = false) (he : m.Reader.endErr = Error.EOF)
    (hk : m.Reader.data.length < 8) :
    ((RecvMessage m).1 = (MessageTypeNone, none, some Error.EOF) ∨
      (RecvMessage m).1 = (MessageTypeNone, none, some Error.ErrUnexpectedEOF)) ∧
    (RecvMessage m).2.lastPayloadReader = m.lastPayloadReader ∧
    payloadPending (RecvMessage m).2 = false ∧
    (RecvMessage (RecvMessage m).2).1 = (MessageTypeNone, none, some Error.EOF) := by
  obtain ⟨r2, e, d2, c2, n2⟩ := RecvMessage_short m hidle hc hk
  have hidle2 : payloadPending { m with Reader := r2 } = false := by
    simpa [payloadPending] using hidle
  obtain ⟨r3, e3, _, _, _⟩ := RecvMessage_short { m with Reader := r2 } hidle2 c2
    (by simp [d2])
  rw [e]
  refine ⟨?_, rfl, hidle2, ?_⟩
  · by_cases h : m.Reader.data.length = 0 ∨ m.Reader.data.length = 4
    · left; rw [if_pos h, he]
    · right; rw [if_neg h, if_pos he]
  · rw [e3]
    simp [d2, n2, he]

/-- C8 at the input of the specification: the stream ends after six of the
eight header bytes. -/
theorem C8_truncated_header_witness :
    (RecvMessage (messageReadWriter.fresh (InStream.ofBytes [1, 0, 0, 0, 5, 0] [])
        OutStream.accepting)).1 = (MessageTypeNone, none, some Error.ErrUnexpectedEOF) ∧
    (RecvMessage (messageReadWriter.fresh (InStream.ofBytes [1, 0, 0, 0, 5, 0] [])
        OutStream.accepting)).2.lastPayloadReader = none ∧
    (RecvMessage (RecvMessage (messageReadWriter.fresh
        (InStream.ofBytes [1, 0, 0, 0, 5, 0] []) OutStream.accepting)).2).1 =
      (MessageTypeNone, none, some Error.EOF) :=
  ⟨by decide,
   (C8_truncated_header (messageReadWriter.fresh (InStream.ofBytes [1, 0, 0, 0, 5, 0] [])
        OutStream.accepting) rfl rfl rfl (by decide)).2.1,
   (C8_truncated_header (messageReadWriter.fresh (InStream.ofBytes [1, 0, 0, 0, 5, 0] [])
        OutStream.accepting) rfl rfl rfl (by decide)).2.2.2⟩

/-- Sending a list of frames on an accepting stream appends their wire bytes. -/
theorem sendAll_accepting (msgs : List (MessageType × Option (List Byte))) :
    ∀ (m : messageReadWriter), m.Writer.closed = false → m.Writer.budget = none →
    (∀ tp ∈ msgs, tp.1 < 2 ^ 32 ∧ payloadLen tp.2 < 2 ^ 32) →
    (sendAll m msgs).1 = none ∧
      (sendAll m msgs).2.Writer.written = m.Writer.written ++ wireBytes msgs := by
  induction msgs with
  | nil => intro m _ _ _; simp [sendAll, wireBytes]
  | cons tp rest ih =>
    intro m hc hb hbound
    obtain ⟨ht, hp⟩ := hbound tp (by simp)
    obtain ⟨hs, hc1, hb1⟩ := SendMessage_accepting m tp.1 tp.2 hc hb
    obtain ⟨hw, _, _, _⟩ := SendMessage_ok m tp.1 tp.2 hs
    rw [Nat.mod_eq_of_lt ht, Nat.mod_eq_of_lt hp, PutUint32_eq_LE32, PutUint32_eq_LE32] at hw
    rcases hS : SendMessage m tp.1 tp.2 with ⟨e, m1⟩
    rw [hS] at hs hc1 hb1 hw
    simp only at hs hc1 hb1 hw
    subst hs
    obtain ⟨i1, i2⟩ := ih m1 hc1 hb1 (fun x hx => hbound x (by simp [hx]))
    simp only [sendAll, hS]
    refine ⟨i1, ?_⟩
    rw [i2, hw]
    simp [wireBytes]

/-- Receiving from the wire bytes of a list of frames returns the frames in
order and then `io.EOF`. -/
theorem recvAll_wireBytes (msgs : List (MessageType × Option (List Byte))) :
    ∀ (peer : messageReadWriter) (rounds : Nat) (bufs : List Nat),
    payloadPending peer = false → peer.Reader.closed = false →
    peer.Reader.endErr = Error.EOF → peer.Reader.data = wireBytes msgs →
    (∀ tp ∈ msgs, tp.1 < 2 ^ 32 ∧ payloadLen tp.2 < 2 ^ 32) →
    (∀ b ∈ bufs, 0 < b) → (∀ tp ∈ msgs, payloadLen tp.2 < bufs.length) →
    msgs.length < rounds →
    (recvAll rounds bufs peer).1 = msgs.map (fun tp => (tp.1, payloadBytes tp.2)) ∧
      (recvAll rounds bufs peer).2.1 = some Error.EOF := by
  induction msgs with
  | nil =>
    intro peer rounds bufs hidle hc he hd _ _ _ hr
    obtain ⟨k, rfl⟩ : ∃ k, rounds = k + 1 := ⟨rounds - 1, by simp at hr; omega⟩
    obtain ⟨r2, e, _, _, _⟩ := RecvMessage_short peer hidle hc (by rw [hd]; simp [wireBytes])
    have hl : peer.Reader.data.length = 0 := by rw [hd]; rfl
    rw [if_pos (Or.inl hl), he] at e
    simp [recvAll, e]
  | cons tp rest ih =>
    intro peer rounds bufs hidle hc he hd hbound hbufs hfuel hr
    obtain ⟨k, rfl⟩ : ∃ k, rounds = k + 1 := ⟨rounds - 1, by simp at hr; omega⟩
    obtain ⟨ht, hp⟩ := hbound tp (by simp)
    have hd1 : peer.Reader.data = PutUint32 tp.1 ++
        (PutUint32 (payloadLen tp.2) ++ (payloadBytes tp.2 ++ wireBytes rest)) := by
      rw [hd, PutUint32_eq_LE32, PutUint32_eq_LE32]; simp [wireBytes]
    obtain ⟨r2, e, d2, c2, n2⟩ := RecvMessage_frame peer tp.1 (payloadLen tp.2)
      (payloadBytes tp.2 ++ wireBytes rest) ht hp hidle hc hd1
    obtain ⟨q1, q2, q3, _, q5, q6⟩ := readAll_drains bufs
      { peer with Reader := r2, lastPayloadReader := some ⟨(payloadLen tp.2 : Int)⟩ }
      (payloadLen tp.2) rfl c2 (by simp [d2, payloadBytes_length]) hbufs
      (hfuel tp (by simp))
    simp only [d2] at q1 q2
    have tk : (payloadBytes tp.2 ++ wireBytes rest).take (payloadLen tp.2) =
        payloadBytes tp.2 := by
      rw [← payloadBytes_length, List.take_left]
    have dr : (payloadBytes tp.2 ++ wireBytes rest).drop (payloadLen tp.2) =
        wireBytes rest := by
      rw [← payloadBytes_length, List.drop_left]
    rw [tk] at q1
    rw [dr] at q2
    obtain ⟨i1, i2⟩ := ih
      (readAll { peer with Reader := r2,
                           lastPayloadReader := some ⟨(payloadLen tp.2 : Int)⟩ } bufs).2
      k bufs (by simp [payloadPending, q3]) q5 (by rw [q6]; simp [n2, he]) q2
      (fun x hx => hbound x (by simp [hx])) hbufs (fun x hx => hfuel x (by simp [hx]))
      (by simp at hr; omega)
    simp only [recvAll, e]
    refine ⟨?_, i2⟩
    rw [i1, q1]
    simp

/-- C9 (frame ordering): for every list of frames with 32-bit types and
payloads of fewer than `2 ^ 32` bytes, sending them in order on a stream that
accepts every byte succeeds, and on a fresh channel whose stream holds the
bytes written and then ends, receiving frame after frame, each payload read to
exhaustion, returns the same types and payloads in the same order, after
which `RecvMessage` reports `io.EOF`. -/
theorem C9_frame_ordering (m peer : messageReadWriter)
    (msgs : List (MessageType × Option (List Byte))) (rounds : Nat) (bufs : List Nat)
    (hbound : ∀ tp ∈ msgs, tp.1 < 2 ^ 32 ∧ payloadLen tp.2 < 2 ^ 32)
    (hwc : m.Writer.closed = false) (hwb : m.Writer.budget = none)
    (hfresh : peer.lastPayloadReader = none) (hrc : peer.Reader.closed = false)
    (hre : peer.Reader.endErr = Error.EOF)
    (hdata : (sendAll m msgs).2.Writer.written = m.Writer.written ++ peer.Reader.data)
    (hbufs : ∀ b ∈ bufs, 0 < b) (hfuel : ∀ tp ∈ msgs, payloadLen tp.2 < bufs.length)
    (hrounds : msgs.length < rounds) :
    (sendAll m msgs).1 = none ∧
    (recvAll rounds bufs peer).1 = msgs.map (fun tp => (tp.1, payloadBytes tp.2)) ∧
    (recvAll rounds bufs peer).2.1 = some Error.EOF := by
  obtain ⟨hs, hw⟩ := sendAll_accepting msgs m hwc hwb hbound
  rw [hw] at hdata
  have hd := (List.append_cancel_left hdata).symm
  have hidle : payloadPending peer = false := by simp [payloadPending, hfresh]
  exact ⟨hs, recvAll_wireBytes msgs peer rounds bufs hidle hrc hre hd hbound hbufs hfuel
    hrounds⟩

/-- C9 at a concrete input: `CONFIGURE` with two bytes, `LOG` with a nil
payload and `SHUTDOWN` with an empty payload, received from a stream that
hands out its bytes in small pieces. -/
theorem C9_frame_ordering_witness :
    (sendAll (messageReadWriter.fresh (InStream.ofBytes [] []) OutStream.accepting)
        [(MessageTypeConfigure, some [7, 8]), (MessageTypeLog, none),
          (MessageTypeShutdown, some [])]).1 = none ∧
    (recvAll 4 [1, 1, 1] (messageReadWriter.fresh
        (InStream.ofBytes [1, 0, 0, 0, 2, 0, 0, 0, 7, 8, 4, 0, 0, 0, 0, 0, 0, 0,
          3, 0, 0, 0, 0, 0, 0, 0] [2, 0, 1]) OutStream.accepting)).1 =
      [(MessageTypeConfigure, [7, 8]), (MessageTypeLog, []), (MessageTypeShutdown, [])] ∧
    (recvAll 4 [1, 1, 1] (messageReadWriter.fresh
        (InStream.ofBytes [1, 0, 0, 0, 2, 0, 0, 0, 7, 8, 4, 0, 0, 0, 0, 0, 0, 0,
          3, 0, 0, 0, 0, 0, 0, 0] [2, 0, 1]) OutStream.accepting)).2.1 = some Error.EOF :=
  C9_frame_ordering (messageReadWriter.fresh (InStream.ofBytes [] []) OutStream.accepting)
    (messageReadWriter.fresh
        (InStream.ofBytes [1, 0, 0, 0, 2, 0, 0, 0, 7, 8, 4, 0, 0, 0, 0, 0, 0, 0,
          3, 0, 0, 0, 0, 0, 0, 0] [2, 0, 1]) OutStream.accepting)
    [(MessageTypeConfigure, some [7, 8]), (MessageTypeLog, none),
      (MessageTypeShutdown, some [])] 4 [1, 1, 1]
    (by decide) rfl rfl rfl rfl rfl (by decide) (by decide) (by decide) (by decide)

/-- The length field and the payload bytes of a `SendMessage` whose writes all
succeed, read off the bytes it appended. -/
theorem SendMessage_length_field (m : messageReadWriter) (t : MessageType)
    (payload : Option (List Byte)) (hs : (SendMessage m t payload).1 = none) :
    Uint32 ((((SendMessage m t payload).2.Writer.written.drop
        m.Writer.written.length).drop 4).take 4) = payloadLen payload % 2 ^ 32 ∧
    ((SendMessage m t payload).2.Writer.written.drop m.Writer.written.length).drop 8 =
      payloadBytes payload := by
  obtain ⟨hw, _, _, _⟩ := SendMessage_ok m t payload hs
  have hlt : payloadLen payload % 2 ^ 32 < 2 ^ 32 := Nat.mod_lt _ (by decide)
  have hu := Uint32_PutUint32 (payloadLen payload % 2 ^ 32) hlt []
  rw [hw, List.append_assoc, List.append_assoc, List.drop_left]
  constructor
  · have e1 : (PutUint32 (t % 2 ^ 32) ++
        (PutUint32 (payloadLen payload % 2 ^ 32) ++ payloadBytes payload)).drop 4 =
        PutUint32 (payloadLen payload % 2 ^ 32) ++ payloadBytes payload :=
      List.drop_left' (PutUint32_length _)
    have e2 : (PutUint32 (payloadLen payload % 2 ^ 32) ++ payloadBytes payload).take 4 =
        PutUint32 (payloadLen payload % 2 ^ 32) :=
      List.take_left' (PutUint32_length _)
    rw [e1, e2]
    simpa using hu
  · have e1 : (PutUint32 (t % 2 ^ 32) ++
        (PutUint32 (payloadLen payload % 2 ^ 32) ++ payloadBytes payload)).drop 8 =
        payloadBytes payload := by
      rw [← List.append_assoc]
      exact List.drop_left' (by simp [PutUint32_length])
    exact e1

/-- C10 (declared length, as amended): when all writes of `SendMessage`
succeed, the length field it wrote is `len payload % 2 ^ 32` and the bytes it
wrote after the header are the whole payload; so for every payload of fewer
than `2 ^ 32` bytes the field equals the number of payload bytes written. -/
theorem C10_declared_length (m : messageReadWriter) (t : MessageType)
    (payload : Option (List Byte)) (hs : (SendMessage m t payload).1 = none) :
    Uint32 ((((SendMessage m t payload).2.Writer.written.drop
        m.Writer.written.length).drop 4).take 4) = payloadLen payload % 2 ^ 32 ∧
    (((SendMessage m t payload).2.Writer.written.drop
        m.Writer.written.length).drop 8).length = payloadLen payload ∧
    (payloadLen payload < 2 ^ 32 →
      Uint32 ((((SendMessage m t payload).2.Writer.written.drop
          m.Writer.written.length).drop 4).take 4) =
        (((SendMessage m t payload).2.Writer.written.drop
          m.Writer.written.length).drop 8).length) := by
  obtain ⟨h1, h2⟩ := SendMessage_length_field m t payload hs
  refine ⟨h1, by rw [h2, payloadBytes_length], ?_⟩
  intro hlt
  rw [h1, h2, payloadBytes_length, Nat.mod_eq_of_lt hlt]

/-- C10 at a concrete input: `SendMessage(LOG, [1 2 3])` declares 3 bytes and
writes 3 payload bytes. -/
theorem C10_declared_length_witness :
    Uint32 ((((SendMessage (messageReadWriter.fresh (InStream.ofBytes [] [])
        OutStream.accepting) MessageTypeLog (some [1, 2, 3])).2.Writer.written.drop
        0).drop 4).take 4) = 3 ∧
    (((SendMessage (messageReadWriter.fresh (InStream.ofBytes [] [])
        OutStream.accepting) MessageTypeLog (some [1, 2, 3])).2.Writer.written.drop
        0).drop 8).length = 3 ∧
    Uint32 ((((SendMessage (messageReadWriter.fresh (InStream.ofBytes [] [])
        OutStream.accepting) MessageTypeLog (some [1, 2, 3])).2.Writer.written.drop
        0).drop 4).take 4) =
      (((SendMessage (messageReadWriter.fresh (InStream.ofBytes [] [])
        OutStream.accepting) MessageTypeLog (some [1, 2, 3])).2.Writer.written.drop
        0).drop 8).length :=
  ⟨(C10_declared_length (messageReadWriter.fresh (InStream.ofBytes [] [])
        OutStream.accepting) MessageTypeLog (some [1, 2, 3]) (by decide)).1,
   (C10_declared_length (messageReadWriter.fresh (InStream.ofBytes [] [])
        OutStream.accepting) MessageTypeLog (some [1, 2, 3]) (by decide)).2.1,
   (C10_declared_length (messageReadWriter.fresh (InStream.ofBytes [] [])
        OutStream.accepting) MessageTypeLog (some [1, 2, 3]) (by decide)).2.2 (by decide)⟩

/-- C10 as stated fails: for a payload of `2 ^ 32` bytes `SendMessage` writes
the length field `0` and then all `4294967296` payload bytes. -/
theorem C10_counterexample :
    (SendMessage (messageReadWriter.fresh (InStream.ofBytes [] []) OutStream.accepting)
      MessageTypeConfigure (some (List.replicate 4294967296 0))).1 = none ∧
    Uint32 ((((SendMessage (messageReadWriter.fresh (InStream.ofBytes [] [])
        OutStream.accepting) MessageTypeConfigure
        (some (List.replicate 4294967296 0))).2.Writer.written.drop 0).drop 4).take 4) = 0 ∧
    (((SendMessage (messageReadWriter.fresh (InStream.ofBytes [] [])
        OutStream.accepting) MessageTypeConfigure
        (some (List.replicate 4294967296 0))).2.Writer.written.drop 0).drop 8).length =
      4294967296 := by
  have hs := (SendMessage_accepting (messageReadWriter.fresh (InStream.ofBytes [] [])
    OutStream.accepting) MessageTypeConfigure (some (List.replicate 4294967296 0)) rfl rfl).1
  obtain ⟨h1, h2⟩ := SendMessage_length_field _ _ _ hs
  have hlen : payloadLen (some (List.replicate 4294967296 (0 : Byte))) = 4294967296 :=
    List.length_replicate _ _
  refine ⟨hs, ?_, ?_⟩
  · rw [hlen] at h1
    exact h1
  · exact (congrArg List.length h2).trans hlen

/-! ## Failures, closing and sequences of calls -/

/-! ### Failing writes -/

/-- A write never takes back bytes: it appends some first part of the buffer,
all of it when it reports no error. -/
theorem OutStream.Write_appends (w : OutStream) (p : List Byte) :
    ∃ k, (w.Write p).2.written = w.written ++ p.take k ∧
      ((w.Write p).1.2 = none → p.take k = p) ∧
      (w.Write p).2.writeCalls = w.writeCalls + 1 := by
  unfold OutStream.Write
  by_cases hc : w.closed = true
  · exact ⟨0, by simp [hc]⟩
  · cases hb : w.budget with
    | none => exact ⟨p.length, by simp [hc, hb]⟩
    | some b =>
      by_cases hl : p.length ≤ b
      · exact ⟨p.length, by simp [hc, hb, hl]⟩
      · exact ⟨b, by simp [hc, hb, hl]⟩

/-- The cases of `SendMessage`, by the outcome of its writes. -/
theorem SendMessage_cases (m : messageReadWriter) (t : MessageType)
    (payload : Option (List Byte)) :
    (∀ e, (typeWrite m t).1.2 = some e →
      SendMessage m t payload = (some e, { m with Writer := (typeWrite m t).2 })) ∧
    ((typeWrite m t).1.2 = none → ∀ e, (lengthWrite m t payload).1.2 = some e →
      SendMessage m t payload =
        (some e, { m with Writer := (lengthWrite m t payload).2 })) ∧
    ((typeWrite m t).1.2 = none → (lengthWrite m t payload).1.2 = none →
      payload = none →
      SendMessage m t payload = (none, { m with Writer := (lengthWrite m t payload).2 })) ∧
    ((typeWrite m t).1.2 = none → (lengthWrite m t payload).1.2 = none →
      ∀ p, payload = some p →
      SendMessage m t payload =
        ((payloadWrite m t p).1.2, { m with Writer := (payloadWrite m t p).2 })) := by
  unfold SendMessage payloadWrite lengthWrite typeWrite
  rcases h1 : m.Writer.Write (PutUint32 (t % 2 ^ 32)) with ⟨⟨n1, e1⟩, w1⟩
  cases e1 with
  | some e => simp
  | none =>
    simp only
    cases payload with
    | none =>
      rcases h2 : w1.Write (PutUint32 (payloadLen none % 2 ^ 32)) with ⟨⟨n2, e2⟩, w2⟩
      cases e2 <;> simp
    | some p =>
      rcases h2 : w1.Write (PutUint32 (payloadLen (some p) % 2 ^ 32)) with ⟨⟨n2, e2⟩, w2⟩
      have h2n := h2
      simp only [Nat.reducePow] at h2n
      cases e2 <;> simp [h2n]

/-! ### `io.ReadFull` on any stream -/

/-- The bytes the loop of `ReadFull` stores come off the front of the stream,
and never more of them than wanted. -/
theorem ReadFull.loop_data (fuel : Nat) : ∀ (r : InStream) (want : Nat) (got : List Byte)
    (err : Option Error), got.length ≤ want →
    got ++ r.data = (ReadFull.loop fuel r want got err).1 ++
        (ReadFull.loop fuel r want got err).2.2.data ∧
      (ReadFull.loop fuel r want got err).1.length ≤ want ∧
      (ReadFull.loop fuel r want got err).2.2.closed = r.closed := by
  induction fuel with
  | zero => intro r want got err h; simp [ReadFull.loop, h]
  | succ f ih =>
    intro r want got err hle
    by_cases hcond : got.length < want ∧ err = none
    · simp only [ReadFull.loop, if_pos hcond]
      have hdata := r.Read_data (want - got.length)
      have hlen := r.Read_length_le (want - got.length)
      have hcl := r.Read_closed (want - got.length)
      rcases hR : r.Read (want - got.length) with ⟨⟨bs, e⟩, r1⟩
      rw [hR] at hdata hlen hcl
      simp only at hdata hlen hcl ⊢
      obtain ⟨i1, i2, i3⟩ := ih r1 want (got ++ bs) e (by simp only [List.length_append]; omega)
      refine ⟨?_, i2, by rw [i3, hcl]⟩
      rw [← i1, hdata, List.append_assoc]
    · simp only [ReadFull.loop, if_neg hcond]
      exact ⟨trivial, hle, trivial⟩

/-- A `ReadFull` that reports no error stored exactly `want` bytes, the first
`want` bytes of the stream. -/
theorem ReadFull_ok (r : InStream) (want : Nat) (h : (ReadFull r want).2.1 = none) :
    (ReadFull r want).1.length = want ∧
      r.data = (ReadFull r want).1 ++ (ReadFull r want).2.2.data ∧
      (ReadFull r want).2.2.closed = r.closed := by
  obtain ⟨d1, d2, d3⟩ := ReadFull.loop_data (want + 1) r want [] none (by simp)
  have hf := ReadFull.loop_fuel (want + 1) r want [] none (by simp)
  unfold ReadFull at h ⊢
  by_cases h1 : want ≤ (ReadFull.loop (want + 1) r want [] none).1.length
  · simp only [if_pos h1] at h ⊢
    exact ⟨by omega, by simpa using d1, d3⟩
  · simp only [if_neg h1] at h
    by_cases h2 : 0 < (ReadFull.loop (want + 1) r want [] none).1.length ∧
        (ReadFull.loop (want + 1) r want [] none).2.1 = some Error.EOF
    · simp [if_pos h2] at h
    · simp only [if_neg h2] at h
      exact absurd ⟨by omega, h⟩ hf

/-- On a closed stream `ReadFull` for at least one byte makes one `Read` call
and returns the error of the closed stream. -/
theorem ReadFull_closed (r : InStream) (want : Nat) (hc : r.closed = true) (hw : 0 < want) :
    ReadFull r want =
      ([], some Error.closed, { r with readCalls := r.readCalls + 1 }) := by
  have hR : r.Read (want - 0) = (([], some Error.closed),
      { r with readCalls := r.readCalls + 1 }) := by
    simp [InStream.Read, hc]
  unfold ReadFull
  have hl : ReadFull.loop (want + 1) r want [] none =
      ([], some Error.closed, { r with readCalls := r.readCalls + 1 }) := by
    simp only [ReadFull.loop, List.length_nil, hw, and_self, if_true, hR, List.append_nil]
    exact ReadFull.loop_err _ _ _ _ _
  rw [hl]
  have : ¬ want ≤ 0 := by omega
  simp [this]

/-- The cases of `RecvMessage` past the state check, by the outcome of its two
header reads. -/
theorem RecvMessage_cases (m : messageReadWriter) (hidle : payloadPending m = false) :
    (∀ e, (ReadFull m.Reader 4).2.1 = some e →
      RecvMessage m = ((MessageTypeNone, none, some e),
        { m with Reader := (ReadFull m.Reader 4).2.2 })) ∧
    ((ReadFull m.Reader 4).2.1 = none →
      ∀ e, (ReadFull (ReadFull m.Reader 4).2.2 4).2.1 = some e →
      RecvMessage m = ((MessageTypeNone, none, some e),
        { m with Reader := (ReadFull (ReadFull m.Reader 4).2.2 4).2.2 })) ∧
    ((ReadFull m.Reader 4).2.1 = none →
      (ReadFull (ReadFull m.Reader 4).2.2 4).2.1 = none →
      RecvMessage m =
        ((Uint32 (ReadFull m.Reader 4).1,
            some ⟨(Uint32 (ReadFull (ReadFull m.Reader 4).2.2 4).1 : Int)⟩, none),
          { m with Reader := (ReadFull (ReadFull m.Reader 4).2.2 4).2.2,
                   lastPayloadReader :=
                     some ⟨(Uint32 (ReadFull (ReadFull m.Reader 4).2.2 4).1 : Int)⟩ })) := by
  unfold RecvMessage
  rw [hidle]
  rcases h1 : ReadFull m.Reader 4 with ⟨buf, e1, r1⟩
  cases e1 with
  | some e => simp
  | none =>
    simp only
    rcases h2 : ReadFull r1 4 with ⟨buf2, e2, r2⟩
    cases e2 with
    | some e => simp
    | none => simp

/-! ### What each call leaves alone -/

/-- The stream that `ReadFull` leaves is closed exactly when it was. -/
theorem ReadFull_closed_eq (r : InStream) (want : Nat) :
    (ReadFull r want).2.2.closed = r.closed ∧
      r.data = (ReadFull r want).1 ++ (ReadFull r want).2.2.data := by
  obtain ⟨d1, _, d3⟩ := ReadFull.loop_data (want + 1) r want [] none (by simp)
  simp only [List.nil_append] at d1
  unfold ReadFull
  simp only
  by_cases h1 : want ≤ (ReadFull.loop (want + 1) r want [] none).1.length
  · rw [if_pos h1]
    exact ⟨d3, d1⟩
  · rw [if_neg h1]
    by_cases h2 : 0 < (ReadFull.loop (want + 1) r want [] none).1.length ∧
        (ReadFull.loop (want + 1) r want [] none).2.1 = some Error.EOF
    · rw [if_pos h2]
      exact ⟨d3, d1⟩
    · rw [if_neg h2]
      exact ⟨d3, d1⟩

/-- The method `RecvMessage` does not touch the writer, keeps the stream open
or closed as it was, and changes the pending cursor only when it succeeds. -/
theorem RecvMessage_frame_rule (m : messageReadWriter) :
    (RecvMessage m).2.Writer = m.Writer ∧
      (RecvMessage m).2.Reader.closed = m.Reader.closed ∧
      ((RecvMessage m).1.2.2 ≠ none →
        (RecvMessage m).2.lastPayloadReader = m.lastPayloadReader) ∧
      ((RecvMessage m).1.2.2 = none → payloadPending m = false) := by
  by_cases hp : payloadPending m = true
  · rw [RecvMessage_pending m hp]
    simp
  · have hidle : payloadPending m = false := by simpa using hp
    obtain ⟨c1, c2, c3⟩ := RecvMessage_cases m hidle
    have k1 := (ReadFull_closed_eq m.Reader 4).1
    have k2 := (ReadFull_closed_eq (ReadFull m.Reader 4).2.2 4).1
    cases h1 : (ReadFull m.Reader 4).2.1 with
    | some e => rw [c1 e h1]; simp [k1, hidle]
    | none =>
      cases h2 : (ReadFull (ReadFull m.Reader 4).2.2 4).2.1 with
      | some e => rw [c2 h1 e h2]; simp [k1, k2, hidle]
      | none => rw [c3 h1 h2]; simp [k1, k2, hidle]

/-- A read through the payload reader does not touch the writer and keeps the
stream open or closed as it was. -/
theorem readPayload_frame_rule (m : messageReadWriter) (n : Nat) :
    (readPayload m n).2.Writer = m.Writer ∧
      (readPayload m n).2.Reader.closed = m.Reader.closed := by
  cases h : m.lastPayloadReader with
  | none => simp [readPayload, h]
  | some l =>
    obtain ⟨_, _, _, q4, _, q6, _⟩ := readPayload_some m l n h
    exact ⟨q4, q6⟩

/-- A write keeps the stream open or closed as it was. -/
theorem OutStream.Write_closed (w : OutStream) (p : List Byte) :
    (w.Write p).2.closed = w.closed ∧
      (w.closed = true → (w.Write p).1.2 = some Error.closed) := by
  unfold OutStream.Write
  by_cases hc : w.closed = true
  · simp [hc]
  · cases hb : w.budget with
    | none => simp [hc, hb]
    | some b =>
      by_cases hl : p.length ≤ b
      · simp [hc, hb, hl]
      · simp [hc, hb, hl]

/-- The method `SendMessage` does not touch the reading stream or the pending
cursor, and keeps the writing stream open or closed as it was. -/
theorem SendMessage_frame_rule (m : messageReadWriter) (t : MessageType)
    (payload : Option (List Byte)) :
    (SendMessage m t payload).2.Reader = m.Reader ∧
      (SendMessage m t payload).2.lastPayloadReader = m.lastPayloadReader ∧
      (SendMessage m t payload).2.Writer.closed = m.Writer.closed ∧
      (m.Writer.closed = true → (SendMessage m t payload).1 = some Error.closed) := by
  obtain ⟨c1, c2, c3, c4⟩ := SendMessage_cases m t payload
  have w1 := OutStream.Write_closed m.Writer (PutUint32 (t % 2 ^ 32))
  have w2 := OutStream.Write_closed (typeWrite m t).2 (PutUint32 (payloadLen payload % 2 ^ 32))
  have w1c : (typeWrite m t).2.closed = m.Writer.closed := w1.1
  have w1e : m.Writer.closed = true → (typeWrite m t).1.2 = some Error.closed := w1.2
  have w2c : (lengthWrite m t payload).2.closed = (typeWrite m t).2.closed := w2.1
  cases h1 : (typeWrite m t).1.2 with
  | some e =>
    rw [c1 e h1]
    refine ⟨rfl, rfl, w1c, fun hc => ?_⟩
    rw [← h1, w1e hc]
  | none =>
    have hopen : ¬ m.Writer.closed = true := fun hc => by
      rw [w1e hc] at h1; simp at h1
    cases h2 : (lengthWrite m t payload).1.2 with
    | some e =>
      rw [c2 h1 e h2]
      exact ⟨rfl, rfl, by simp only; rw [w2c, w1c], fun hc => absurd hc hopen⟩
    | none =>
      cases payload with
      | none =>
        rw [c3 h1 h2 rfl]
        exact ⟨rfl, rfl, by simp only; rw [w2c, w1c], fun hc => absurd hc hopen⟩
      | some p =>
        rw [c4 h1 h2 p rfl]
        have w3 := OutStream.Write_closed (lengthWrite m t (some p)).2 p
        have w3c : (payloadWrite m t p).2.closed = (lengthWrite m t (some p)).2.closed := w3.1
        exact ⟨rfl, rfl, by simp only; rw [w3c, w2c, w1c], fun hc => absurd hc hopen⟩

/-- Closed streams stay closed under every call. -/
theorem Call.run_closed (c : Call) (m : messageReadWriter) :
    (m.Reader.closed = true → (c.run m).2.Reader.closed = true) ∧
      (m.Writer.closed = true → (c.run m).2.Writer.closed = true) := by
  cases c with
  | recv =>
    obtain ⟨f1, f2, _, _⟩ := RecvMessage_frame_rule m
    exact ⟨fun h => by simp only [Call.run]; rw [f2, h],
      fun h => by simp only [Call.run]; rw [f1, h]⟩
  | send t payload =>
    obtain ⟨f1, _, f3, _⟩ := SendMessage_frame_rule m t payload
    exact ⟨fun h => by simp only [Call.run]; rw [f1, h],
      fun h => by simp only [Call.run]; rw [f3, h]⟩
  | read n =>
    obtain ⟨f1, f2⟩ := readPayload_frame_rule m n
    exact ⟨fun h => by simp only [Call.run]; rw [f2, h],
      fun h => by simp only [Call.run]; rw [f1, h]⟩
  | close => simp [Call.run, Close, InStream.Close, OutStream.Close]

/-- Closed streams stay closed under every sequence of calls. -/
theorem runCalls_closed (cs : List Call) : ∀ (m : messageReadWriter),
    m.Reader.closed = true → m.Writer.closed = true →
    (runCalls m cs).2.Reader.closed = true ∧ (runCalls m cs).2.Writer.closed = true := by
  induction cs with
  | nil => intro m h1 h2; exact ⟨h1, h2⟩
  | cons c cs ih =>
    intro m h1 h2
    obtain ⟨a, b⟩ := Call.run_closed c m
    exact ih (c.run m).2 (a h1) (b h2)

/-! ### The two directions -/

/-- With fewer bytes left on the stream than the cursor still wants, every
call leaves it so. -/
theorem Call.run_wedged (c : Call) (m : messageReadWriter) (l : LimitedReader)
    (h : m.lastPayloadReader = some l) (hs : (m.Reader.data.length : Int) < l.N) :
    ∃ l1, (c.run m).2.lastPayloadReader = some l1 ∧
      ((c.run m).2.Reader.data.length : Int) < l1.N := by
  have hp : payloadPending m = true := (payloadPending_iff m).mpr ⟨l, h, by omega⟩
  cases c with
  | recv =>
    refine ⟨l, ?_, ?_⟩
    · simp only [Call.run]; rw [RecvMessage_pending m hp]; exact h
    · simp only [Call.run]; rw [RecvMessage_pending m hp]; exact hs
  | send t payload =>
    obtain ⟨f1, f2, _, _⟩ := SendMessage_frame_rule m t payload
    refine ⟨l, ?_, ?_⟩
    · simp only [Call.run]; rw [f2, h]
    · simp only [Call.run]; rw [f1]; exact hs
  | read n =>
    obtain ⟨q1, _, _, _, q5, _, _⟩ := readPayload_some m l n h
    refine ⟨_, q1, ?_⟩
    have hl : m.Reader.data.length =
        (readPayload m n).1.1.length + (readPayload m n).2.Reader.data.length := by
      conv_lhs => rw [q5]
      simp
    simp only [Call.run]
    omega
  | close =>
    refine ⟨l, ?_, ?_⟩
    · simp [Call.run, Close, h]
    · simpa [Call.run, Close, InStream.Close] using hs

/-- With fewer bytes left on the stream than the cursor still wants, every
sequence of calls leaves it so. -/
theorem runCalls_wedged (cs : List Call) : ∀ (m : messageReadWriter) (l : LimitedReader),
    m.lastPayloadReader = some l → (m.Reader.data.length : Int) < l.N →
    ∃ l1, (runCalls m cs).2.lastPayloadReader = some l1 ∧
      ((runCalls m cs).2.Reader.data.length : Int) < l1.N := by
  induction cs with
  | nil => intro m l h hs; exact ⟨l, h, hs⟩
  | cons c cs ih =>
    intro m l h hs
    obtain ⟨l1, h1, hs1⟩ := Call.run_wedged c m l h hs
    exact ih (c.run m).2 l1 h1 hs1

theorem InStream.Read_closeCalls (s : InStream) (n : Nat) :
    (s.Read n).2.closeCalls = s.closeCalls := by
  unfold InStream.Read
  by_cases hc : s.closed = true
  · simp [hc]
  · by_cases hn : n = 0
    · simp [hc, hn]
    · cases hd : s.data with
      | nil => simp [hc, hn, hd]
      | cons x xs => simp [hc, hn, hd]

theorem ReadFull.loop_closeCalls (fuel : Nat) : ∀ (r : InStream) (want : Nat)
    (got : List Byte) (err : Option Error),
    (ReadFull.loop fuel r want got err).2.2.closeCalls = r.closeCalls := by
  induction fuel with
  | zero => intro r want got err; rfl
  | succ f ih =>
    intro r want got err
    by_cases hcond : got.length < want ∧ err = none
    · simp only [ReadFull.loop, if_pos hcond]
      rw [ih, InStream.Read_closeCalls]
    · simp only [ReadFull.loop, if_neg hcond]

theorem ReadFull_closeCalls (r : InStream) (want : Nat) :
    (ReadFull r want).2.2.closeCalls = r.closeCalls := by
  have h := ReadFull.loop_closeCalls (want + 1) r want [] none
  unfold ReadFull
  simp only
  by_cases h1 : want ≤ (ReadFull.loop (want + 1) r want [] none).1.length
  · rw [if_pos h1]; exact h
  · rw [if_neg h1]
    by_cases h2 : 0 < (ReadFull.loop (want + 1) r want [] none).1.length ∧
        (ReadFull.loop (want + 1) r want [] none).2.1 = some Error.EOF
    · rw [if_pos h2]; exact h
    · rw [if_neg h2]; exact h

theorem OutStream.Write_closeCalls (w : OutStream) (p : List Byte) :
    (w.Write p).2.closeCalls = w.closeCalls := by
  unfold OutStream.Write
  by_cases hc : w.closed = true
  · simp [hc]
  · cases hb : w.budget with
    | none => simp [hc, hb]
    | some b =>
      by_cases hl : p.length ≤ b
      · simp [hc, hb, hl]
      · simp [hc, hb, hl]

/-- Only `Close` calls `Close` on the streams: every other call leaves both
counters of `Close` calls as they are, and `Close` adds one to each. -/
theorem Call.run_closeCalls (c : Call) (m : messageReadWriter) :
    (c.run m).2.Reader.closeCalls =
        m.Reader.closeCalls + (if c = Call.close then 1 else 0) ∧
      (c.run m).2.Writer.closeCalls =
        m.Writer.closeCalls + (if c = Call.close then 1 else 0) := by
  cases c with
  | recv =>
    obtain ⟨fw, _, _, _⟩ := RecvMessage_frame_rule m
    refine ⟨?_, by simp [Call.run, fw]⟩
    simp only [Call.run, if_neg (by simp : ¬ Call.recv = Call.close), Nat.add_zero]
    by_cases hp : payloadPending m = true
    · rw [RecvMessage_pending m hp]
    · obtain ⟨c1, c2, c3⟩ := RecvMessage_cases m (by simpa using hp)
      have k1 := ReadFull_closeCalls m.Reader 4
      have k2 := ReadFull_closeCalls (ReadFull m.Reader 4).2.2 4
      cases h1 : (ReadFull m.Reader 4).2.1 with
      | some e => rw [c1 e h1]; exact k1
      | none =>
        cases h2 : (ReadFull (ReadFull m.Reader 4).2.2 4).2.1 with
        | some e => rw [c2 h1 e h2]; simp only; rw [k2, k1]
        | none => rw [c3 h1 h2]; simp only; rw [k2, k1]
  | send t payload =>
    obtain ⟨fr, _, _, _⟩ := SendMessage_frame_rule m t payload
    refine ⟨by simp [Call.run, fr], ?_⟩
    simp only [Call.run, if_neg (by simp : ¬ Call.send t payload = Call.close), Nat.add_zero]
    obtain ⟨c1, c2, c3, c4⟩ := SendMessage_cases m t payload
    have k1 : (typeWrite m t).2.closeCalls = m.Writer.closeCalls :=
      OutStream.Write_closeCalls _ _
    have k2 : (lengthWrite m t payload).2.closeCalls = (typeWrite m t).2.closeCalls :=
      OutStream.Write_closeCalls _ _
    cases h1 : (typeWrite m t).1.2 with
    | some e => rw [c1 e h1]; exact k1
    | none =>
      cases h2 : (lengthWrite m t payload).1.2 with
      | some e => rw [c2 h1 e h2]; simp only; rw [k2, k1]
      | none =>
        cases payload with
        | none => rw [c3 h1 h2 rfl]; simp only; rw [k2, k1]
        | some p =>
          have k3 : (payloadWrite m t p).2.closeCalls =
              (lengthWrite m t (some p)).2.closeCalls := OutStream.Write_closeCalls _ _
          rw [c4 h1 h2 p rfl]; simp only; rw [k3, k2, k1]
  | read n =>
    obtain ⟨fw, _⟩ := readPayload_frame_rule m n
    refine ⟨?_, by simp [Call.run, fw]⟩
    simp only [Call.run, if_neg (by simp : ¬ Call.read n = Call.close), Nat.add_zero]
    unfold readPayload
    cases hl : m.lastPayloadReader with
    | none => rfl
    | some l =>
      simp only [LimitedReader.Read]
      by_cases hN : l.N ≤ 0
      · simp [hN]
      · simp only [if_neg hN]
        exact InStream.Read_closeCalls _ _
  | close => simp [Call.run, Close, InStream.Close, OutStream.Close]

/-- Over a sequence of calls each stream has `Close` called once per `Close`
of the channel. -/
theorem runCalls_closeCalls (cs : List Call) : ∀ (m : messageReadWriter),
    (runCalls m cs).2.Reader.closeCalls = m.Reader.closeCalls + cs.count Call.close ∧
      (runCalls m cs).2.Writer.closeCalls = m.Writer.closeCalls + cs.count Call.close := by
  induction cs with
  | nil => intro m; exact ⟨rfl, rfl⟩
  | cons c cs ih =>
    intro m
    obtain ⟨a, b⟩ := Call.run_closeCalls c m
    obtain ⟨i1, i2⟩ := ih (c.run m).2
    simp only [runCalls]
    rw [i1, i2, a, b, List.count_cons]
    by_cases hc : c = Call.close
    · subst hc; simp; omega
    · have : ¬ (c == Call.close) = true := by simpa using hc
      simp [hc, this]

/-! ## The claims on failures, closing and the cursor -/

/-- C11 (send failure propagation): `SendMessage` returns an error exactly
when one of the writes it makes (type word, then length word, then payload)
returns one; it returns that first error and leaves the writer as that failing
write left it, so that no further write is made (one `Write` call after a
failed type write, two after a failed length write); and the bytes written
before the call are still there. -/
theorem C11_send_failure (m : messageReadWriter) (t : MessageType)
    (payload : Option (List Byte)) :
    ((SendMessage m t payload).1 ≠ none ↔
      (typeWrite m t).1.2 ≠ none ∨
      ((typeWrite m t).1.2 = none ∧ (lengthWrite m t payload).1.2 ≠ none) ∨
      ((typeWrite m t).1.2 = none ∧ (lengthWrite m t payload).1.2 = none ∧
        ∃ p, payload = some p ∧ (payloadWrite m t p).1.2 ≠ none)) ∧
    (∀ e, (typeWrite m t).1.2 = some e →
      (SendMessage m t payload).1 = some e ∧
      (SendMessage m t payload).2.Writer = (typeWrite m t).2 ∧
      (SendMessage m t payload).2.Writer.writeCalls = m.Writer.writeCalls + 1) ∧
    ((typeWrite m t).1.2 = none → ∀ e, (lengthWrite m t payload).1.2 = some e →
      (SendMessage m t payload).1 = some e ∧
      (SendMessage m t payload).2.Writer = (lengthWrite m t payload).2 ∧
      (SendMessage m t payload).2.Writer.writeCalls = m.Writer.writeCalls + 2) ∧
    ((typeWrite m t).1.2 = none → (lengthWrite m t payload).1.2 = none →
      ∀ p, payload = some p →
      (SendMessage m t payload).1 = (payloadWrite m t p).1.2 ∧
      (SendMessage m t payload).2.Writer = (payloadWrite m t p).2 ∧
      (SendMessage m t payload).2.Writer.writeCalls = m.Writer.writeCalls + 3) ∧
    m.Writer.written <+: (SendMessage m t payload).2.Writer.written := by
  obtain ⟨c1, c2, c3, c4⟩ := SendMessage_cases m t payload
  obtain ⟨k1, a1, _, n1⟩ := OutStream.Write_appends m.Writer (PutUint32 (t % 2 ^ 32))
  obtain ⟨k2, a2, _, n2⟩ := OutStream.Write_appends (typeWrite m t).2
    (PutUint32 (payloadLen payload % 2 ^ 32))
  have a1 : (typeWrite m t).2.written = _ := a1
  have n1 : (typeWrite m t).2.writeCalls = _ := n1
  have a2 : (lengthWrite m t payload).2.written = _ := a2
  have n2 : (lengthWrite m t payload).2.writeCalls = _ := n2
  cases h1 : (typeWrite m t).1.2 with
  | some e1 =>
    have s := c1 e1 h1
    refine ⟨by simp [s], ?_, by simp, by simp, ?_⟩
    · intro e he
      obtain rfl : e1 = e := by simpa using he
      rw [s]
      exact ⟨rfl, rfl, n1⟩
    · rw [s]
      exact ⟨_, a1.symm⟩
  | none =>
    cases h2 : (lengthWrite m t payload).1.2 with
    | some e2 =>
      have s := c2 h1 e2 h2
      refine ⟨by simp [s], by simp, ?_, by simp, ?_⟩
      · intro _ e he
        obtain rfl : e2 = e := by simpa using he
        rw [s]
        exact ⟨rfl, rfl, by simp only; rw [n2, n1]⟩
      · rw [s]
        simp only
        rw [a2, a1, List.append_assoc]
        exact ⟨_, rfl⟩
    | none =>
      cases payload with
      | none =>
        have s := c3 h1 h2 rfl
        refine ⟨by simp [s], by simp, by simp, by simp, ?_⟩
        rw [s]
        simp only
        rw [a2, a1, List.append_assoc]
        exact ⟨_, rfl⟩
      | some p =>
        have s := c4 h1 h2 p rfl
        obtain ⟨k3, a3, _, n3⟩ := OutStream.Write_appends (lengthWrite m t (some p)).2 p
        have a3 : (payloadWrite m t p).2.written = _ := a3
        have n3 : (payloadWrite m t p).2.writeCalls = _ := n3
        refine ⟨by simp [s], by simp, by simp, ?_, ?_⟩
        · intro _ _ q hq
          obtain rfl : p = q := by simpa using hq
          rw [s]
          exact ⟨rfl, rfl, by simp only; rw [n3, n2, n1]⟩
        · rw [s]
          simp only
          rw [a3, a2, a1, List.append_assoc, List.append_assoc]
          exact ⟨_, rfl⟩

/-- C11 at concrete inputs: `SendMessage(CONFIGURE, [9 9])` on streams that
accept 2, 6 and 9 more bytes: the type write, the length write and the payload
write fail, after 1, 2 and 3 `Write` calls. -/
theorem C11_send_failure_witness :
    ((SendMessage (messageReadWriter.fresh (InStream.ofBytes [] [])
        { OutStream.accepting with budget := some 2 }) MessageTypeConfigure
        (some [9, 9])).1 = some (Error.stream 0) ∧
      (SendMessage (messageReadWriter.fresh (InStream.ofBytes [] [])
        { OutStream.accepting with budget := some 2 }) MessageTypeConfigure
        (some [9, 9])).2.Writer =
        (typeWrite (messageReadWriter.fresh (InStream.ofBytes [] [])
          { OutStream.accepting with budget := some 2 }) MessageTypeConfigure).2 ∧
      (SendMessage (messageReadWriter.fresh (InStream.ofBytes [] [])
        { OutStream.accepting with budget := some 2 }) MessageTypeConfigure
        (some [9, 9])).2.Writer.writeCalls = 0 + 1) ∧
    ((SendMessage (messageReadWriter.fresh (InStream.ofBytes [] [])
        { OutStream.accepting with budget := some 6 }) MessageTypeConfigure
        (some [9, 9])).1 = some (Error.stream 0) ∧
      (SendMessage (messageReadWriter.fresh (InStream.ofBytes [] [])
        { OutStream.accepting with budget := some 6 }) MessageTypeConfigure
        (some [9, 9])).2.Writer =
        (lengthWrite (messageReadWriter.fresh (InStream.ofBytes [] [])
          { OutStream.accepting with budget := some 6 }) MessageTypeConfigure
          (some [9, 9])).2 ∧
      (SendMessage (messageReadWriter.fresh (InStream.ofBytes [] [])
        { OutStream.accepting with budget := some 6 }) MessageTypeConfigure
        (some [9, 9])).2.Writer.writeCalls = 0 + 2) ∧
    ((SendMessage (messageReadWriter.fresh (InStream.ofBytes [] [])
        { OutStream.accepting with budget := some 9 }) MessageTypeConfigure
        (some [9, 9])).1 =
        (payloadWrite (messageReadWriter.fresh (InStream.ofBytes [] [])
          { OutStream.accepting with budget := some 9 }) MessageTypeConfigure [9, 9]).1.2 ∧
      (SendMessage (messageReadWriter.fresh (InStream.ofBytes [] [])
        { OutStream.accepting with budget := some 9 }) MessageTypeConfigure
        (some [9, 9])).2.Writer =
        (payloadWrite (messageReadWriter.fresh (InStream.ofBytes [] [])
          { OutStream.accepting with budget := some 9 }) MessageTypeConfigure [9, 9]).2 ∧
      (SendMessage (messageReadWriter.fresh (InStream.ofBytes [] [])
        { OutStream.accepting with budget := some 9 }) MessageTypeConfigure
        (some [9, 9])).2.Writer.writeCalls = 0 + 3) ∧
    (SendMessage (messageReadWriter.fresh (InStream.ofBytes [] [])
        { OutStream.accepting with budget := some 9 }) MessageTypeConfigure
        (some [9, 9])).2.Writer.written = [1, 0, 0, 0, 2, 0, 0, 0, 9] :=
  ⟨(C11_send_failure (messageReadWriter.fresh (InStream.ofBytes [] [])
        { OutStream.accepting with budget := some 2 }) MessageTypeConfigure
        (some [9, 9])).2.1 (Error.stream 0) rfl,
   (C11_send_failure (messageReadWriter.fresh (InStream.ofBytes [] [])
        { OutStream.accepting with budget := some 6 }) MessageTypeConfigure
        (some [9, 9])).2.2.1 rfl (Error.stream 0) rfl,
   (C11_send_failure (messageReadWriter.fresh (InStream.ofBytes [] [])
        { OutStream.accepting with budget := some 9 }) MessageTypeConfigure
        (some [9, 9])).2.2.2.1 rfl rfl [9, 9] rfl,
   by decide⟩

/-- C12 (close attempts both streams): in every channel state, whatever
closing the reader stream returns, `Close` calls `Close` on the reader stream
and then on the writer stream, once each, and both are closed when it returns;
no other call of the channel calls `Close` on a stream, so that after any
sequence of calls and one more `Close`, each stream has had `Close` called
exactly once for each `Close` of the channel. -/
theorem C12_close_both (m : messageReadWriter) (cs : List Call) :
    (Close m).2.Reader = (m.Reader.Close).2 ∧
    (Close m).2.Writer = (m.Writer.Close).2 ∧
    (Close m).2.Reader.closeCalls = m.Reader.closeCalls + 1 ∧
    (Close m).2.Writer.closeCalls = m.Writer.closeCalls + 1 ∧
    (Close m).2.Reader.closed = true ∧
    (Close m).2.Writer.closed = true ∧
    (Close (runCalls m cs).2).2.Reader.closeCalls =
      m.Reader.closeCalls + cs.count Call.close + 1 ∧
    (Close (runCalls m cs).2).2.Writer.closeCalls =
      m.Writer.closeCalls + cs.count Call.close + 1 := by
  obtain ⟨a, b⟩ := runCalls_closeCalls cs m
  refine ⟨rfl, rfl, rfl, rfl, rfl, rfl, ?_, ?_⟩
  · show (runCalls m cs).2.Reader.closeCalls + 1 = _
    rw [a]
  · show (runCalls m cs).2.Writer.closeCalls + 1 = _
    rw [b]

/-- C13 (as amended): `Close` has no result, so it reports nothing: whatever
closing the reader stream and the writer stream return, the caller gets the
same (empty) result, while both streams are closed and each return value is
the one the stream's own `Close` produced and `Close` dropped. -/
theorem C13_close_reports_nothing (m : messageReadWriter) (e1 e2 : Option Error) :
    ({ m with Reader := { m.Reader with closeErr := e1 } }.Reader.Close).1 = e1 ∧
    ({ m with Writer := { m.Writer with closeErr := e2 } }.Writer.Close).1 = e2 ∧
    (Close { m with Reader := { m.Reader with closeErr := e1 },
                    Writer := { m.Writer with closeErr := e2 } }).1 = (Close m).1 ∧
    (Close { m with Reader := { m.Reader with closeErr := e1 },
                    Writer := { m.Writer with closeErr := e2 } }).2.Reader.closed = true ∧
    (Close { m with Reader := { m.Reader with closeErr := e1 },
                    Writer := { m.Writer with closeErr := e2 } }).2.Writer.closed = true := by
  simp [Close, InStream.Close, OutStream.Close]

/-- C13 as stated fails: closing the reader stream returns an error, closing
the writer stream returns another, and `Close` hands its caller the same result
as on a channel whose two streams close without error. -/
theorem C13_counterexample :
    ((InStream.Close { InStream.ofBytes [] [] with
        closeErr := some (Error.stream 5) }).1 = some (Error.stream 5)) ∧
    ((OutStream.Close { OutStream.accepting with
        closeErr := some (Error.stream 6) }).1 = some (Error.stream 6)) ∧
    (Close (messageReadWriter.fresh
        { InStream.ofBytes [] [] with closeErr := some (Error.stream 5) }
        { OutStream.accepting with closeErr := some (Error.stream 6) })).1 =
      (Close (messageReadWriter.fresh (InStream.ofBytes [] []) OutStream.accepting)).1 := by
  decide

/-- C14 (use after close): after `Close`, and after any further calls, every
`RecvMessage` fails and returns no reader, every `SendMessage` fails, for
every type and payload; the error of a `RecvMessage` that passes the state
check, and of a `SendMessage`, is the error of the closed stream.  (The
streams of the embedding report `Error.closed` from `Read` and `Write` once
they are closed.) -/
theorem C14_use_after_close (m : messageReadWriter) (cs : List Call) (t : MessageType)
    (payload : Option (List Byte)) :
    (RecvMessage (runCalls (Close m).2 cs).2).1.2.2 ≠ none ∧
    (RecvMessage (runCalls (Close m).2 cs).2).1.2.1 = none ∧
    (payloadPending (runCalls (Close m).2 cs).2 = false →
      (RecvMessage (runCalls (Close m).2 cs).2).1 =
        (MessageTypeNone, none, some Error.closed)) ∧
    (SendMessage (runCalls (Close m).2 cs).2 t payload).1 = some Error.closed := by
  obtain ⟨hr, hw⟩ := runCalls_closed cs (Close m).2 (by simp [Close, InStream.Close])
    (by simp [Close, OutStream.Close])
  have hidle_case : payloadPending (runCalls (Close m).2 cs).2 = false →
      (RecvMessage (runCalls (Close m).2 cs).2).1 =
        (MessageTypeNone, none, some Error.closed) := by
    intro hidle
    obtain ⟨c1, _, _⟩ := RecvMessage_cases _ hidle
    have hf := ReadFull_closed (runCalls (Close m).2 cs).2.Reader 4 hr (by decide)
    rw [c1 Error.closed (by rw [hf])]
  refine ⟨?_, ?_, hidle_case, (SendMessage_frame_rule _ t payload).2.2.2 hw⟩
  · by_cases hp : payloadPending (runCalls (Close m).2 cs).2 = true
    · rw [RecvMessage_pending _ hp]; simp
    · rw [hidle_case (by simpa using hp)]; simp
  · by_cases hp : payloadPending (runCalls (Close m).2 cs).2 = true
    · rw [RecvMessage_pending _ hp]
    · rw [hidle_case (by simpa using hp)]

/-- C14 at a concrete input: a channel with a complete frame waiting is closed;
then `RecvMessage` and `SendMessage(LOG, nil)` fail with the error of the
closed stream, also after more calls. -/
theorem C14_use_after_close_witness :
    (RecvMessage (runCalls (Close (messageReadWriter.fresh
        (InStream.ofBytes [4, 0, 0, 0, 0, 0, 0, 0] []) OutStream.accepting)).2
        [Call.recv, Call.send MessageTypeLog none, Call.read 4]).2).1 =
      (MessageTypeNone, none, some Error.closed) ∧
    (SendMessage (runCalls (Close (messageReadWriter.fresh
        (InStream.ofBytes [4, 0, 0, 0, 0, 0, 0, 0] []) OutStream.accepting)).2
        [Call.recv, Call.send MessageTypeLog none, Call.read 4]).2 MessageTypeLog none).1 =
      some Error.closed :=
  ⟨(C14_use_after_close (messageReadWriter.fresh
        (InStream.ofBytes [4, 0, 0, 0, 0, 0, 0, 0] []) OutStream.accepting)
        [Call.recv, Call.send MessageTypeLog none, Call.read 4] MessageTypeLog none).2.2.1 rfl,
   (C14_use_after_close (messageReadWriter.fresh
        (InStream.ofBytes [4, 0, 0, 0, 0, 0, 0, 0] []) OutStream.accepting)
        [Call.recv, Call.send MessageTypeLog none, Call.read 4] MessageTypeLog none).2.2.2⟩

/-- C16 (no fallback on error): when the state check rejects the call, or the
read of the type word fails, or the read of the length word fails,
`RecvMessage` returns that error with `MessageTypeNone` and no payload reader;
an error never comes with a reader; and a call that returns no error passed
the state check, read four type bytes off the stream, and returns their
little-endian value as the type. -/
theorem C16_no_fallback (m : messageReadWriter) :
    (payloadPending m = true →
      (RecvMessage m).1 = (MessageTypeNone, none, some Error.lastPayloadNotFullyRead)) ∧
    (payloadPending m = false → ∀ e, (ReadFull m.Reader 4).2.1 = some e →
      (RecvMessage m).1 = (MessageTypeNone, none, some e)) ∧
    (payloadPending m = false → (ReadFull m.Reader 4).2.1 = none →
      ∀ e, (ReadFull (ReadFull m.Reader 4).2.2 4).2.1 = some e →
      (RecvMessage m).1 = (MessageTypeNone, none, some e)) ∧
    ((RecvMessage m).1.2.2 ≠ none →
      (RecvMessage m).1.1 = MessageTypeNone ∧ (RecvMessage m).1.2.1 = none) ∧
    ((RecvMessage m).1.2.2 = none →
      payloadPending m = false ∧
      (ReadFull m.Reader 4).2.1 = none ∧
      (ReadFull (ReadFull m.Reader 4).2.2 4).2.1 = none ∧
      (RecvMessage m).1.2.1 ≠ none ∧
      (ReadFull m.Reader 4).1 = m.Reader.data.take 4 ∧
      (m.Reader.data.take 4).length = 4 ∧
      (RecvMessage m).1.1 = Uint32 (m.Reader.data.take 4)) := by
  by_cases hp : payloadPending m = true
  · have s := RecvMessage_pending m hp
    refine ⟨fun _ => by rw [s], by simp [hp], by simp [hp], by rw [s]; simp, by rw [s]; simp⟩
  · have hidle : payloadPending m = false := by simpa using hp
    obtain ⟨c1, c2, c3⟩ := RecvMessage_cases m hidle
    refine ⟨by simp [hidle], fun _ e he => by rw [c1 e he],
      fun _ h1 e he => by rw [c2 h1 e he], ?_, ?_⟩
    · intro hne
      cases h1 : (ReadFull m.Reader 4).2.1 with
      | some e => rw [c1 e h1]; exact ⟨rfl, rfl⟩
      | none =>
        cases h2 : (ReadFull (ReadFull m.Reader 4).2.2 4).2.1 with
        | some e => rw [c2 h1 e h2]; exact ⟨rfl, rfl⟩
        | none => rw [c3 h1 h2] at hne; exact absurd rfl hne
    · intro hok
      cases h1 : (ReadFull m.Reader 4).2.1 with
      | some e => rw [c1 e h1] at hok; simp at hok
      | none =>
        cases h2 : (ReadFull (ReadFull m.Reader 4).2.2 4).2.1 with
        | some e => rw [c2 h1 e h2] at hok; simp at hok
        | none =>
          obtain ⟨l1, d1, _⟩ := ReadFull_ok m.Reader 4 h1
          have ht : m.Reader.data.take 4 = (ReadFull m.Reader 4).1 := by
            conv_lhs => rw [d1]
            exact List.take_left' l1
          refine ⟨hidle, rfl, rfl, by rw [c3 h1 h2]; simp, ht.symm, by rw [ht, l1], ?_⟩
          rw [c3 h1 h2, ht]

/-- C16 at concrete inputs: an unread payload byte, a stream that ends after
two bytes, a stream that ends after six bytes, and a complete header with the
type `7`, which is not one of the reserved values. -/
theorem C16_no_fallback_witness :
    (RecvMessage { Reader := InStream.ofBytes [4, 0, 0, 0, 0, 0, 0, 0] [],
                   Writer := OutStream.accepting, lastPayloadReader := some ⟨1⟩ }).1 =
      (MessageTypeNone, none, some Error.lastPayloadNotFullyRead) ∧
    (RecvMessage (messageReadWriter.fresh (InStream.ofBytes [4, 0] [])
        OutStream.accepting)).1 = (MessageTypeNone, none, some Error.ErrUnexpectedEOF) ∧
    (RecvMessage (messageReadWriter.fresh (InStream.ofBytes [4, 0, 0, 0, 1, 0] [])
        OutStream.accepting)).1 = (MessageTypeNone, none, some Error.ErrUnexpectedEOF) ∧
    ((RecvMessage (messageReadWriter.fresh (InStream.ofBytes [4, 0] [])
        OutStream.accepting)).1.1 = MessageTypeNone ∧
      (RecvMessage (messageReadWriter.fresh (InStream.ofBytes [4, 0] [])
        OutStream.accepting)).1.2.1 = none) ∧
    (RecvMessage (messageReadWriter.fresh (InStream.ofBytes [7, 0, 0, 0, 1, 0, 0, 0, 5] [])
        OutStream.accepting)).1.1 = Uint32 [7, 0, 0, 0] :=
  ⟨(C16_no_fallback { Reader := InStream.ofBytes [4, 0, 0, 0, 0, 0, 0, 0] [],
                      Writer := OutStream.accepting, lastPayloadReader := some ⟨1⟩ }).1 rfl,
   (C16_no_fallback (messageReadWriter.fresh (InStream.ofBytes [4, 0] [])
        OutStream.accepting)).2.1 rfl Error.ErrUnexpectedEOF rfl,
   (C16_no_fallback (messageReadWriter.fresh (InStream.ofBytes [4, 0, 0, 0, 1, 0] [])
        OutStream.accepting)).2.2.1 rfl rfl Error.ErrUnexpectedEOF rfl,
   (C16_no_fallback (messageReadWriter.fresh (InStream.ofBytes [4, 0] [])
        OutStream.accepting)).2.2.2.1 (by decide),
   ((C16_no_fallback (messageReadWriter.fresh
        (InStream.ofBytes [7, 0, 0, 0, 1, 0, 0, 0, 5] []) OutStream.accepting)).2.2.2.2
        rfl).2.2.2.2.2.2⟩

/-- C17 (which end-of-stream error): on an idle channel whose open stream ends
cleanly after `k < 8` bytes, `RecvMessage` returns `io.EOF` when `k` is 0 or 4
and `io.ErrUnexpectedEOF` when `k` is 1, 2, 3, 5, 6 or 7; the call has taken
all `k` bytes off the stream, and for `k >= 4` the first `ReadFull` succeeded
and took the four type bytes before the error arose. -/
theorem C17_which_eof (m : messageReadWriter) (hidle : payloadPending m = false)
    (hc : m.Reader.closed = false) (he : m.Reader.endErr = Error.EOF)
    (hk : m.Reader.data.length < 8) :
    (m.Reader.data.length = 0 ∨ m.Reader.data.length = 4 →
      (RecvMessage m).1 = (MessageTypeNone, none, some Error.EOF)) ∧
    (m.Reader.data.length ≠ 0 → m.Reader.data.length ≠ 4 →
      (RecvMessage m).1 = (MessageTypeNone, none, some Error.ErrUnexpectedEOF)) ∧
    (RecvMessage m).2.Reader.data = [] ∧
    (4 ≤ m.Reader.data.length →
      (ReadFull m.Reader 4).1 = m.Reader.data.take 4 ∧
      (ReadFull m.Reader 4).2.1 = none ∧
      (ReadFull m.Reader 4).2.2.data = m.Reader.data.drop 4) := by
  obtain ⟨r2, e, d2, _, _⟩ := RecvMessage_short m hidle hc hk
  refine ⟨?_, ?_, by rw [e]; exact d2, ?_⟩
  · intro h
    rw [e, if_pos h, he]
  · intro h0 h4
    rw [e, if_neg (by omega), if_pos he]
  · intro h4
    obtain ⟨r1, e1, d1, _, _⟩ := ReadFull_open m.Reader 4 hc
    rw [if_pos h4] at e1
    rw [e1]
    exact ⟨rfl, rfl, d1⟩

/-- C17 at concrete inputs: streams that end after 0, 3, 4 and 7 bytes. -/
theorem C17_which_eof_witness :
    (RecvMessage (messageReadWriter.fresh (InStream.ofBytes [] [])
        OutStream.accepting)).1 = (MessageTypeNone, none, some Error.EOF) ∧
    (RecvMessage (messageReadWriter.fresh (InStream.ofBytes [1, 0, 0] [])
        OutStream.accepting)).1 = (MessageTypeNone, none, some Error.ErrUnexpectedEOF) ∧
    (RecvMessage (messageReadWriter.fresh (InStream.ofBytes [1, 0, 0, 0] [])
        OutStream.accepting)).1 = (MessageTypeNone, none, some Error.EOF) ∧
    (RecvMessage (messageReadWriter.fresh (InStream.ofBytes [1, 0, 0, 0, 5, 0, 0] [])
        OutStream.accepting)).1 = (MessageTypeNone, none, some Error.ErrUnexpectedEOF) ∧
    (RecvMessage (messageReadWriter.fresh (InStream.ofBytes [1, 0, 0, 0, 5, 0, 0] [])
        OutStream.accepting)).2.Reader.data = [] ∧
    (ReadFull (InStream.ofBytes [1, 0, 0, 0, 5, 0, 0] []) 4).1 = [1, 0, 0, 0] :=
  ⟨(C17_which_eof (messageReadWriter.fresh (InStream.ofBytes [] [])
        OutStream.accepting) rfl rfl rfl (by decide)).1 (Or.inl rfl),
   (C17_which_eof (messageReadWriter.fresh (InStream.ofBytes [1, 0, 0] [])
        OutStream.accepting) rfl rfl rfl (by decide)).2.1 (by decide) (by decide),
   (C17_which_eof (messageReadWriter.fresh (InStream.ofBytes [1, 0, 0, 0] [])
        OutStream.accepting) rfl rfl rfl (by decide)).1 (Or.inr rfl),
   (C17_which_eof (messageReadWriter.fresh (InStream.ofBytes [1, 0, 0, 0, 5, 0, 0] [])
        OutStream.accepting) rfl rfl rfl (by decide)).2.1 (by decide) (by decide),
   (C17_which_eof (messageReadWriter.fresh (InStream.ofBytes [1, 0, 0, 0, 5, 0, 0] [])
        OutStream.accepting) rfl rfl rfl (by decide)).2.2.1,
   ((C17_which_eof (messageReadWriter.fresh (InStream.ofBytes [1, 0, 0, 0, 5, 0, 0] [])
        OutStream.accepting) rfl rfl rfl (by decide)).2.2.2 (by decide)).1⟩

/-- C18 (a truncated payload wedges the receive direction): when `RecvMessage`
returned a reader of declared length `l.N` and the stream holds fewer than
`l.N` further bytes before it ends or fails, then after any sequence of calls
the cursor is still above zero and `RecvMessage` returns the state error, not
an end-of-stream error, and changes nothing. -/
theorem C18_truncated_payload_wedges (m : messageReadWriter) (t : MessageType)
    (l : LimitedReader) (cs : List Call)
    (hrecv : (RecvMessage m).1 = (t, some l, none))
    (hshort : ((RecvMessage m).2.Reader.data.length : Int) < l.N) :
    0 < remaining (runCalls (RecvMessage m).2 cs).2 ∧
    RecvMessage (runCalls (RecvMessage m).2 cs).2 =
      ((MessageTypeNone, none, some Error.lastPayloadNotFullyRead),
        (runCalls (RecvMessage m).2 cs).2) := by
  obtain ⟨hl, _, _, _⟩ := RecvMessage_success m t l hrecv
  obtain ⟨l1, h1, hs1⟩ := runCalls_wedged cs (RecvMessage m).2 l hl hshort
  have hpos : 0 < l1.N := by omega
  refine ⟨by simp [remaining, h1, hpos], ?_⟩
  exact RecvMessage_pending _ ((payloadPending_iff _).mpr ⟨l1, h1, hpos⟩)

/-- C18 at a concrete input: the header declares five payload bytes and the
stream ends after two of them; the caller reads three times and calls
`RecvMessage` in between. -/
theorem C18_truncated_payload_wedges_witness :
    0 < remaining (runCalls (RecvMessage (messageReadWriter.fresh
        (InStream.ofBytes [1, 0, 0, 0, 5, 0, 0, 0, 7, 8] []) OutStream.accepting)).2
        [Call.read 4, Call.recv, Call.read 4, Call.read 4]).2 ∧
    RecvMessage (runCalls (RecvMessage (messageReadWriter.fresh
        (InStream.ofBytes [1, 0, 0, 0, 5, 0, 0, 0, 7, 8] []) OutStream.accepting)).2
        [Call.read 4, Call.recv, Call.read 4, Call.read 4]).2 =
      ((MessageTypeNone, none, some Error.lastPayloadNotFullyRead),
        (runCalls (RecvMessage (messageReadWriter.fresh
          (InStream.ofBytes [1, 0, 0, 0, 5, 0, 0, 0, 7, 8] []) OutStream.accepting)).2
          [Call.read 4, Call.recv, Call.read 4, Call.read 4]).2) :=
  C18_truncated_payload_wedges (messageReadWriter.fresh
      (InStream.ofBytes [1, 0, 0, 0, 5, 0, 0, 0, 7, 8] []) OutStream.accepting)
    MessageTypeConfigure ⟨5⟩ [Call.read 4, Call.recv, Call.read 4, Call.read 4]
    rfl (by decide)

end Pyrunner
